import Mathlib

/-!
Verification of the 3-2-1 ranked-vote application (`src/main.py`, with the
older variant `src/app.py` embedded where the two differ).

The Python program is shallowly embedded: DataFrames become lists of rows,
strings become Lean `String`s (lists of Unicode scalar values), file writes
become explicit `Option Df` write actions, and the nondeterministic
`uuid.uuid4().hex[:8]` id generator becomes an explicit parameter.
`unicodedata.normalize("NFKC", ·)` is modelled character-wise
(`nfkcChar`), which is exact for every character appearing in this
application's data (kana, CJK ideographs, ASCII, the separator set and the
fullwidth ASCII block); multi-character combining sequences are outside
the model.  CSV serialization is deterministic, so byte-identity of files
is modelled as equality of the structured `Df` values.
-/

/-! ## Definitions -/

/-- Model of Python `str.isspace` characters relevant here (the `\s` class of
`re` in Unicode mode), by code point: space, TAB, LF, CR, VT, FF,
IDEOGRAPHIC SPACE (U+3000) and NO-BREAK SPACE (U+00A0). -/
def isPySpace (c : Char) : Bool :=
  c.toNat = 0x20 || c.toNat = 0x9 || c.toNat = 0xA || c.toNat = 0xD ||
  c.toNat = 0xB || c.toNat = 0xC || c.toNat = 0x3000 || c.toNat = 0xA0

/-- The character class of `re.sub(r"[\s,、。・~〜\-_\/]+", "", s)` in
`normalize_for_merge`: whitespace plus `,` `、`(U+3001) `。`(U+3002)
`・`(U+30FB) `~` `〜`(U+301C) `-` `_` `/`. -/
def isSep (c : Char) : Bool :=
  isPySpace c || c.toNat = 0x2C || c.toNat = 0x3001 || c.toNat = 0x3002 ||
  c.toNat = 0x30FB || c.toNat = 0x7E || c.toNat = 0x301C || c.toNat = 0x2D ||
  c.toNat = 0x5F || c.toNat = 0x2F

/-- Character-wise model of `unicodedata.normalize("NFKC", ·)`:
IDEOGRAPHIC SPACE compatibility-maps to SPACE and the fullwidth ASCII block
U+FF01–U+FF5E maps down by 0xFEE0; every other character of the modelled
repertoire is NFKC-invariant. -/
def nfkcChar (c : Char) : Char :=
  if c.toNat = 0x3000 then ' '
  else if 0xFF01 ≤ c.toNat ∧ c.toNat ≤ 0xFF5E then Char.ofNat (c.toNat - 0xFEE0)
  else c

/-- `hira_to_kata` from `normalize_for_merge`: a character in the Hiragana
block U+3041–U+3096 is shifted by the fixed offset 0x60 to its Katakana
counterpart; everything else is unchanged. -/
def hiraToKata (c : Char) : Char :=
  if 0x3041 ≤ c.toNat ∧ c.toNat ≤ 0x3096 then Char.ofNat (c.toNat + 0x60) else c

/-- Python `str.strip()` on a character list: drop leading and trailing
whitespace. -/
def pyStripChars (cs : List Char) : List Char :=
  ((cs.dropWhile isPySpace).reverse.dropWhile isPySpace).reverse

/-- Python `str.strip()`. -/
def pyStrip (s : String) : String := ⟨pyStripChars s.data⟩

/-- `ALIAS_MAP` from the source: exact-match synonym/homophone table. -/
def ALIAS_MAP : List (String × String) :=
  [("ﾊﾟｯｹｰｼﾞ", "パッケージ"), ("パッケージング", "パッケージ"),
   ("パケ", "パッケージ"), ("包装", "パッケージ")]

/-- A Python value passed to `normalize_for_merge`: a `str` or anything
else (the `isinstance(name, str)` check). -/
inductive PyVal where
  | str (s : String)
  | other
deriving DecidableEq

/-- `normalize_for_merge(name)` from the source: non-`str` input yields
`""`; otherwise NFKC-normalise the trimmed input, map hiragana to
katakana, strip the separator class, and apply the alias table
(exact full-string match, `ALIAS_MAP.get(s, s)`). -/
def normalize_for_merge : PyVal → String
  | .other => ""
  | .str name =>
    let s1 := pyStripChars name.data
    let s2 := s1.map nfkcChar
    let s3 := s2.map hiraToKata
    let s4 := s3.filter (fun c => !isSep c)
    let s : String := ⟨s4⟩
    (ALIAS_MAP.lookup s).getD s

/-- The merge key of a label (always called on `str` values in the code). -/
def normKeyS (s : String) : String := normalize_for_merge (.str s)

/-- The composite per-character map of the pipeline (NFKC then
hiragana→katakana). -/
def pipeChar (c : Char) : Char := hiraToKata (nfkcChar c)

/-- A row of `candidates.csv` after schema normalisation: `id,label,active`. -/
structure Candidate where
  id : String
  label : String
  active : Bool
deriving DecidableEq

/-- A row of `votes.csv` after schema normalisation:
`voter_name,employee_id,first_id,second_id,third_id,time` (all opaque text). -/
structure Vote where
  voterName : String
  employeeId : String
  firstId : String
  secondId : String
  thirdId : String
  time : String
deriving DecidableEq

/-- One candidate's running tally: `{"points": …, "first": …, "second": …, "third": …}`. -/
structure Tally where
  points : Nat
  first : Nat
  second : Nat
  third : Nat
deriving DecidableEq

/-- The scope of an aggregation run:
`set(cands[cands["active"]]["id"]) if not include_inactive else set(cands["id"])`.
The Python `set` is modelled as the id list deduplicated keeping first
occurrences (a deterministic refinement of the set's enumeration order). -/
def scopeIds (cands : List Candidate) (includeInactive : Bool) : List String :=
  go ((if includeInactive then cands else cands.filter (·.active)).map (·.id)) []
where
  go : List String → List String → List String
    | [], _ => []
    | x :: xs, seen => if x ∈ seen then go xs seen else x :: go xs (x :: seen)

/-- `stats[f]["points"] += 3; stats[f]["first"] += 1`. -/
def addFirst (t : Tally) : Tally := { t with points := t.points + 3, first := t.first + 1 }

/-- `stats[s]["points"] += 2; stats[s]["second"] += 1`. -/
def addSecond (t : Tally) : Tally := { t with points := t.points + 2, second := t.second + 1 }

/-- `stats[t]["points"] += 1; stats[t]["third"] += 1`. -/
def addThird (t : Tally) : Tally := { t with points := t.points + 1, third := t.third + 1 }

/-- `if cid in stats: stats[cid] = f(stats[cid])` — a dictionary update that
is a no-op when the key is absent. -/
def bumpStat (stats : List (String × Tally)) (cid : String) (f : Tally → Tally) :
    List (String × Tally) :=
  stats.map (fun p => if p.1 = cid then (p.1, f p.2) else p)

/-- The body of the `for _, row in votes.iterrows()` loop: the three
conditional slot updates for one vote. -/
def voteStep (stats : List (String × Tally)) (v : Vote) : List (String × Tally) :=
  bumpStat (bumpStat (bumpStat stats v.firstId addFirst) v.secondId addSecond)
    v.thirdId addThird

/-- The `stats` dictionary after the whole vote loop, starting from a zero
tally per scoped candidate id. -/
def aggStatsList (cands : List Candidate) (votes : List Vote) (includeInactive : Bool) :
    List (String × Tally) :=
  votes.foldl voteStep ((scopeIds cands includeInactive).map (fun cid => (cid, ⟨0, 0, 0, 0⟩)))

/-- One vote's contribution to a fixed candidate id (the same three
conditional updates, viewed per candidate). -/
def voteTally (cid : String) (v : Vote) (t : Tally) : Tally :=
  let t1 := if v.firstId = cid then addFirst t else t
  let t2 := if v.secondId = cid then addSecond t1 else t1
  if v.thirdId = cid then addThird t2 else t2

/-- The tally a candidate id accumulates over a vote list. -/
def tallyFor (cid : String) (votes : List Vote) : Tally :=
  votes.foldl (fun t v => voteTally cid v t) ⟨0, 0, 0, 0⟩

/-- The 3/2/1-weighted slot counts of a candidate id over a vote list (the
closed form of its stats entry). -/
def slotCounts (cid : String) (votes : List Vote) : Tally where
  points := 3 * votes.countP (fun v => v.firstId == cid) +
    2 * votes.countP (fun v => v.secondId == cid) +
    votes.countP (fun v => v.thirdId == cid)
  first := votes.countP (fun v => v.firstId == cid)
  second := votes.countP (fun v => v.secondId == cid)
  third := votes.countP (fun v => v.thirdId == cid)

/-- `id_to_label = {r.id: r.label for r in cands.itertuples()}` — a Python
dict, so a later duplicate id overwrites an earlier one; `.get(cid, f"[{cid}]")`. -/
def idToLabel (cands : List Candidate) (cid : String) : String :=
  ((cands.reverse.find? (fun c => c.id == cid)).map (·.label)).getD ("[" ++ cid ++ "]")

/-- A row of the aggregation result: display label (`候補`) plus the tally. -/
structure AggRow where
  label : String
  points : Nat
  first : Nat
  second : Nat
  third : Nat
deriving DecidableEq

/-- The unsorted result rows, one per stats entry,
`{"候補": id_to_label.get(cid, f"[{cid}]"), **v}`, in dictionary order. -/
def aggRows (cands : List Candidate) (votes : List Vote) (includeInactive : Bool) :
    List AggRow :=
  (aggStatsList cands votes includeInactive).map
    (fun p => ⟨idToLabel cands p.1, p.2.points, p.2.first, p.2.second, p.2.third⟩)

/-- Code-point lexicographic string comparison (Python's `str` ordering,
used by pandas when sorting by the label column). -/
def charsLe : List Char → List Char → Bool
  | [], _ => true
  | _ :: _, [] => false
  | a :: as, b :: bs => if a = b then charsLe as bs else decide (a.toNat < b.toNat)

/-- The pandas multi-key comparison of
`sort_values(["points","first","second","third","候補"],
ascending=[False,False,False,False,True])`: `a` sorts no later than `b`. -/
def keyLE (a b : AggRow) : Bool :=
  if a.points ≠ b.points then decide (b.points < a.points)
  else if a.first ≠ b.first then decide (b.first < a.first)
  else if a.second ≠ b.second then decide (b.second < a.second)
  else if a.third ≠ b.third then decide (b.third < a.third)
  else charsLe a.label.data b.label.data

/-- The five sort keys of a row (ids are not among them). -/
def rowKey (r : AggRow) : Nat × Nat × Nat × Nat × String :=
  (r.points, r.first, r.second, r.third, r.label)

/-- Stable insertion into a sorted row list: `a` is placed before the first
element it does not sort strictly after. -/
def insertRow (a : AggRow) : List AggRow → List AggRow
  | [] => [a]
  | b :: bs => if keyLE a b then a :: b :: bs else b :: insertRow a bs

/-- Stable sort of the result rows (pandas `sort_values` with a key list
uses a stable lexicographic sort). -/
def sortRows : List AggRow → List AggRow
  | [] => []
  | a :: as => insertRow a (sortRows as)

/-- `aggregate(cands, votes, include_inactive)`: the sorted leaderboard
rows (the empty-stats case returns the empty typed frame, which coincides
with sorting the empty row list). -/
def aggregate (cands : List Candidate) (votes : List Vote) (includeInactive : Bool) :
    List AggRow :=
  sortRows (aggRows cands votes includeInactive)

/-- `df.index = range(1, len(df) + 1)` — the 1-based rank attached to each
sorted row. -/
def aggregateRanked (cands : List Candidate) (votes : List Vote) (includeInactive : Bool) :
    List (Nat × AggRow) :=
  (aggregate cands votes includeInactive).enum.map (fun p => (p.1 + 1, p.2))

/-- pandas `votes[col].replace(dup_id, base_id)` applied to the three id
columns of one vote row. -/
def replaceVote (oldId newId : String) (v : Vote) : Vote :=
  { v with
    firstId := if v.firstId = oldId then newId else v.firstId,
    secondId := if v.secondId = oldId then newId else v.secondId,
    thirdId := if v.thirdId = oldId then newId else v.thirdId }

/-- Simultaneous repointing of a set of removed ids to the survivor id
(the net effect of the sequential per-duplicate replacement loop). -/
def replaceMulti (dups : List String) (newId : String) (v : Vote) : Vote :=
  { v with
    firstId := if v.firstId ∈ dups then newId else v.firstId,
    secondId := if v.secondId ∈ dups then newId else v.secondId,
    thirdId := if v.thirdId ∈ dups then newId else v.thirdId }

/-- `conflict = tmp[tmp["_key"] == key_new]` in the add branch: every
candidate whose label has the same merge key, in list order. -/
def addConflicts (cands : List Candidate) (labelS : String) : List Candidate :=
  cands.filter (fun c => normKeyS c.label == normKeyS labelS)

/-- `conflict = tmp[(tmp["_key"] == key_new) & (tmp["id"] != cid)]` in the
rename/save branch: every other candidate with the same merge key. -/
def saveConflicts (cands : List Candidate) (cid labelS : String) : List Candidate :=
  cands.filter (fun c => normKeyS c.label == normKeyS labelS && c.id != cid)

/-- Keep-first deduplication by id with an accumulator of already-seen ids. -/
def dedupByIdSeen (seen : List String) : List Candidate → List Candidate
  | [] => []
  | c :: rest =>
    if c.id ∈ seen then dedupByIdSeen seen rest
    else c :: dedupByIdSeen (c.id :: seen) rest

/-- `save_candidates`: `drop_duplicates(subset=["id"])` keeping first
occurrences before the write (the `astype(bool)` coercion is the identity
on the Bool field of the model). -/
def save_candidates (cands : List Candidate) : List Candidate := dedupByIdSeen [] cands

/-- The admin 追加 (add) button handler of `src/main.py`: strip the label
(warning and no state change when empty), detect same-key candidates; with
no conflict append a fresh candidate; otherwise unify onto the first match:
set its label to the new text and re-activate it, repoint votes of every
other match to it, and drop those matches; persist through
`save_candidates`. The fresh `uuid4` id is the `newId` parameter. -/
def adminAdd (newId : String) (labelRaw : String) (cands : List Candidate)
    (votes : List Vote) : Option (List Candidate × List Vote) :=
  let labelS := pyStrip labelRaw
  if labelS = "" then none
  else
    match addConflicts cands labelS with
    | [] => some (save_candidates (cands ++ [⟨newId, labelS, true⟩]), votes)
    | base :: dups =>
      let cands1 := cands.map (fun c => if c.id = base.id then ⟨c.id, labelS, true⟩ else c)
      let votes1 := if votes.isEmpty then votes
        else dups.foldl (fun vs r => vs.map (replaceVote r.id base.id)) votes
      let cands2 := cands1.filter (fun c => !((dups.map (·.id)).contains c.id))
      some (save_candidates cands2, votes1)

/-- The admin 保存 (save/rename) button handler of `src/main.py`: strip the
new label (warning and no state change when empty), update the renamed
candidate's label and active flag to the edited values, then merge every
other candidate with the same key into it (repoint votes, then drop the
matches) and persist through `save_candidates`. -/
def adminSave (cid : String) (labelRaw : String) (activeBox : Bool)
    (cands : List Candidate) (votes : List Vote) : Option (List Candidate × List Vote) :=
  let labelS := pyStrip labelRaw
  if labelS = "" then none
  else
    let conflict := saveConflicts cands cid labelS
    let cands1 := cands.map (fun c => if c.id = cid then ⟨c.id, labelS, activeBox⟩ else c)
    let votes1 := if votes.isEmpty || conflict.isEmpty then votes
      else conflict.foldl (fun vs r => vs.map (replaceVote r.id cid)) votes
    let cands2 := if conflict.isEmpty then cands1
      else cands1.filter (fun c => !((conflict.map (·.id)).contains c.id))
    some (save_candidates cands2, votes1)

/-- Componentwise sum of two tallies. -/
def addT (t u : Tally) : Tally :=
  ⟨t.points + u.points, t.first + u.first, t.second + u.second, t.third + u.third⟩

/-- A tabular flat file: column list plus rows of column-keyed cells.  CSV
serialization (`to_csv` / `read_csv`) is deterministic, so byte-identity of
two files produced by it coincides with equality of their `Df` values. -/
structure Df where
  cols : List String
  rows : List (List (String × String))
deriving DecidableEq

/-- `row[col]` with pandas' empty-string fill for a missing cell. -/
def getCell (row : List (String × String)) (c : String) : String :=
  (row.lookup c).getD ""

/-- `set(df.columns) >= {...}`. -/
def hasCols (df : Df) (cs : List String) : Bool :=
  cs.all (fun c => df.cols.contains c)

/-- Column selection `df[cs]` (after `df[col] = ""` fills for listed columns
that are absent). -/
def selectCols (df : Df) (cs : List String) : Df :=
  ⟨cs, df.rows.map (fun r => cs.map (fun c => (c, getCell r c)))⟩

/-- Canonical candidate columns. -/
def candCols : List String := ["id", "label", "active"]

/-- Canonical vote columns of `src/main.py`. -/
def voteCols : List String :=
  ["voter_name", "employee_id", "first_id", "second_id", "third_id", "time"]

/-- `DEFAULT_CANDIDATES`. -/
def DEFAULT_CANDIDATES : List String := ["候補A", "候補B", "候補C", "候補D"]

/-- The first-run bootstrap candidates file (fresh uuid ids passed in). -/
def bootstrapDf (freshIds : List String) : Df :=
  ⟨candCols, (DEFAULT_CANDIDATES.zip freshIds).map
    (fun p => [("id", p.2), ("label", p.1), ("active", "True")])⟩

/-- Legacy `{name[, active]}` → canonical candidate conversion: rename
`name`→`label`, default missing `active` to True, synthesize fresh ids. -/
def convertLegacyCands (freshIds : List String) (df : Df) : Df :=
  ⟨candCols, (df.rows.zip freshIds).map (fun p =>
    [("id", p.2), ("label", getCell p.1 "name"),
     ("active", if df.cols.contains "active" then getCell p.1 "active" else "True")])⟩

/-- `ensure_candidates_schema` of `src/main.py`: the result DataFrame and
the write action performed on `candidates.csv` (`none` = no write).
Canonical `{id,label,active}` passes through without writing; legacy
`{name,…}` converts and persists; any other shape, and an absent file,
fall through to writing the default bootstrap set. -/
def ensure_candidates_schema (freshIds : List String) (file : Option Df) : Df × Option Df :=
  match file with
  | some df =>
    if hasCols df candCols then (selectCols df candCols, none)
    else if hasCols df ["name"] then
      let conv := convertLegacyCands freshIds df
      (conv, some conv)
    else
      let boot := bootstrapDf freshIds
      (boot, some boot)
  | none =>
    let boot := bootstrapDf freshIds
    (boot, some boot)

/-- A schema failure result for the `src/app.py` variant. -/
inductive SchemaResult where
  | ok (df : Df) (write : Option Df)
  | schemaError (msg : String)
deriving DecidableEq

/-- `ensure_candidates_schema` of `src/app.py`: same as `src/main.py`
except that an unrecognized column set raises
`ValueError("candidates.csv の列構成が不正です…")` instead of bootstrapping. -/
def ensureCandidatesSchemaApp (freshIds : List String) (file : Option Df) : SchemaResult :=
  match file with
  | some df =>
    if hasCols df candCols then .ok (selectCols df candCols) none
    else if hasCols df ["name"] then
      let conv := convertLegacyCands freshIds df
      .ok conv (some conv)
    else .schemaError "candidates.csv の列構成が不正です（id,label,active or name,active を想定）"
  | none =>
    let boot := bootstrapDf freshIds
    .ok boot (some boot)

/-- `label_to_id = {r.label: r.id for r in cands.itertuples()}` — later
rows overwrite earlier ones, so lookup searches from the end. -/
def labelToId (cands : Df) (label : String) : Option String :=
  ((cands.rows.reverse.find? (fun r => getCell r "label" == label)).map
    (fun r => getCell r "id"))

/-- Legacy `{first,second,third}` (labels) → canonical vote conversion of
`src/main.py`: resolve labels through the candidate table, emitting `""`
for an unmatched label; carry `voter_name`/`employee_id`/`time` through
when present, else fill `""`. -/
def convertLegacyVotes (cands : Df) (df : Df) : Df :=
  ⟨voteCols, df.rows.map (fun r =>
    [("voter_name", if df.cols.contains "voter_name" then getCell r "voter_name" else ""),
     ("employee_id", if df.cols.contains "employee_id" then getCell r "employee_id" else ""),
     ("first_id", (labelToId cands (getCell r "first")).getD ""),
     ("second_id", (labelToId cands (getCell r "second")).getD ""),
     ("third_id", (labelToId cands (getCell r "third")).getD ""),
     ("time", if df.cols.contains "time" then getCell r "time" else "")])⟩

/-- The empty canonical votes frame of `src/main.py`. -/
def emptyVotesDf : Df := ⟨voteCols, []⟩

/-- `ensure_votes_schema` of `src/main.py`: the result DataFrame and the
write action on `votes.csv`.  A file whose columns contain
`first_id,second_id,third_id` is reordered/filled to the six canonical
columns **and rewritten**; a legacy `{first,second,third}` file is
converted and rewritten; any other shape, and an absent file, yield the
empty canonical frame without touching the file. -/
def ensure_votes_schema (cands : Df) (file : Option Df) : Df × Option Df :=
  match file with
  | some df =>
    if hasCols df ["first_id", "second_id", "third_id"] then
      let out := selectCols df voteCols
      (out, some out)
    else if hasCols df ["first", "second", "third"] then
      let conv := convertLegacyVotes cands df
      (conv, some conv)
    else (emptyVotesDf, none)
  | none => (emptyVotesDf, none)

/-- The empty votes frame of `src/app.py` (four columns only). -/
def emptyVotesDfApp : Df := ⟨["first_id", "second_id", "third_id", "time"], []⟩

/-- `ensure_votes_schema` of `src/app.py`: the canonical branch does NOT
rewrite the file (it only reorders in memory, adding an empty `time`
column when missing); the legacy branch converts and rewrites; any other
shape, and an absent file, yield the empty frame without writing. -/
def ensureVotesSchemaApp (cands : Df) (file : Option Df) : Df × Option Df :=
  match file with
  | some df =>
    if hasCols df ["first_id", "second_id", "third_id"] then
      (if df.cols.contains "time" then selectCols df ["first_id", "second_id", "third_id", "time"]
       else ⟨df.cols ++ ["time"], df.rows.map (fun r => r ++ [("time", "")])⟩, none)
    else if hasCols df ["first", "second", "third"] then
      let conv : Df := ⟨["first_id", "second_id", "third_id", "time"], df.rows.map (fun r =>
        [("first_id", (labelToId cands (getCell r "first")).getD ""),
         ("second_id", (labelToId cands (getCell r "second")).getD ""),
         ("third_id", (labelToId cands (getCell r "third")).getD ""),
         ("time", if df.cols.contains "time" then getCell r "time" else "")])⟩
      (conv, some conv)
    else (emptyVotesDfApp, none)
  | none => (emptyVotesDfApp, none)

/-- `append_vote`: the in-memory effect of appending one vote row —
voter name and employee id are carried through `str(...).strip()`, the
three ids verbatim, the timestamp supplied by the caller. -/
def append_vote (voterName employeeId firstId secondId thirdId now : String)
    (votes : List Vote) : List Vote :=
  votes ++ [⟨pyStrip voterName, pyStrip employeeId, firstId, secondId, thirdId, now⟩]

/-- Outcome of the vote-page submit handler: a `st.error` message (no vote
stored) or the new vote list. -/
inductive SubmitResult where
  | rejected (msg : String)
  | accepted (votes : List Vote)
deriving DecidableEq

/-- The 投票を送信 (submit) handler of `src/main.py`: reject when voter
name or employee id is empty, when any rank is unselected (`None`), or
when the three selected ids are not pairwise distinct
(`len({f,s,t}) < 3`); otherwise append the vote. -/
def submitVote (voterName employeeId : String)
    (first? second? third? : Option String) (now : String) (votes : List Vote) :
    SubmitResult :=
  if voterName = "" || employeeId = "" then
    .rejected "お名前と社員番号を入力してください"
  else
    match first?, second?, third? with
    | some f, some s, some t =>
      if f = s || f = t || s = t then .rejected "同じ候補は重複して選べません"
      else .accepted (append_vote voterName employeeId f s t now votes)
    | none, _, _ => .rejected "1〜3位をすべて選んでください"
    | _, none, _ => .rejected "1〜3位をすべて選んでください"
    | _, _, none => .rejected "1〜3位をすべて選んでください"

/-- Serialisation of one vote into a canonical `votes.csv` row. -/
def voteToRow (v : Vote) : List (String × String) :=
  [("voter_name", v.voterName), ("employee_id", v.employeeId), ("first_id", v.firstId),
   ("second_id", v.secondId), ("third_id", v.thirdId), ("time", v.time)]

/-- The canonical `votes.csv` content for a vote list. -/
def votesToDf (vs : List Vote) : Df := ⟨voteCols, vs.map voteToRow⟩

/-- Decimal digit rendering of a natural number (fuel-structured so it
evaluates by reduction). -/
def natDigitsAux : Nat → Nat → List Char
  | 0, _ => []
  | fuel + 1, n =>
    if n < 10 then [Char.ofNat (48 + n)]
    else natDigitsAux fuel (n / 10) ++ [Char.ofNat (48 + n % 10)]

/-- `str(n)` for a natural number. -/
def natToString (n : Nat) : String := ⟨natDigitsAux (n + 1) n⟩

/-- `int(s)` for an all-digit string. -/
def digitsToNat (cs : List Char) : Nat :=
  cs.foldl (fun acc c => acc * 10 + (c.toNat - 48)) 0

/-- `pd.read_csv` cell parsing: with `dtype=str` (as `src/main.py` reads
`votes.csv`) every cell stays verbatim text; without it, an all-digit cell
is parsed as an integer and re-serialised, destroying leading zeros. -/
def readCsvCell (dtypeStr : Bool) (s : String) : String :=
  if dtypeStr then s
  else if s.length != 0 && s.data.all (·.isDigit) then natToString (digitsToNat s.data)
  else s

/-- Reading a whole file with the given dtype policy. -/
def readDf (dtypeStr : Bool) (df : Df) : Df :=
  ⟨df.cols, df.rows.map (List.map (fun p => (p.1, readCsvCell dtypeStr p.2)))⟩

/-- Deserialisation of one canonical row back into a vote. -/
def rowToVote (r : List (String × String)) : Vote :=
  ⟨getCell r "voter_name", getCell r "employee_id", getCell r "first_id",
   getCell r "second_id", getCell r "third_id", getCell r "time"⟩

/-- Reading the canonical votes file back into vote records. -/
def dfToVotes (df : Df) : List Vote := df.rows.map rowToVote

/-! ## Theorems -/

theorem toNat_ofNat_of_lt {n : Nat} (h : n < 0xD800) : (Char.ofNat n).toNat = n := by
  have hv : n.isValidChar := Or.inl h
  simp [Char.ofNat, hv, Char.ofNatAux, Char.toNat, UInt32.toNat, UInt32.ofNatCore]

theorem hiraToKata_toNat (c : Char) :
    (hiraToKata c).toNat =
      if 0x3041 ≤ c.toNat ∧ c.toNat ≤ 0x3096 then c.toNat + 0x60 else c.toNat := by
  unfold hiraToKata
  split
  · next h => exact toNat_ofNat_of_lt (by omega)
  · rfl

theorem nfkcChar_toNat (c : Char) :
    (nfkcChar c).toNat =
      if c.toNat = 0x3000 then 0x20
      else if 0xFF01 ≤ c.toNat ∧ c.toNat ≤ 0xFF5E then c.toNat - 0xFEE0
      else c.toNat := by
  unfold nfkcChar
  split
  · rfl
  · split
    · next h => exact toNat_ofNat_of_lt (by omega)
    · rfl

theorem isPySpace_iff (c : Char) : isPySpace c = true ↔
    (c.toNat = 0x20 ∨ c.toNat = 0x9 ∨ c.toNat = 0xA ∨ c.toNat = 0xD ∨
     c.toNat = 0xB ∨ c.toNat = 0xC ∨ c.toNat = 0x3000 ∨ c.toNat = 0xA0) := by
  simp only [isPySpace, Bool.or_eq_true, decide_eq_true_eq]
  tauto

theorem isSep_iff (c : Char) : isSep c = true ↔
    (c.toNat = 0x20 ∨ c.toNat = 0x9 ∨ c.toNat = 0xA ∨ c.toNat = 0xD ∨
     c.toNat = 0xB ∨ c.toNat = 0xC ∨ c.toNat = 0x3000 ∨ c.toNat = 0xA0 ∨
     c.toNat = 0x2C ∨ c.toNat = 0x3001 ∨ c.toNat = 0x3002 ∨ c.toNat = 0x30FB ∨
     c.toNat = 0x7E ∨ c.toNat = 0x301C ∨ c.toNat = 0x2D ∨ c.toNat = 0x5F ∨
     c.toNat = 0x2F) := by
  simp only [isSep, isPySpace, Bool.or_eq_true, decide_eq_true_eq]
  tauto

/-- NFKC maps separator characters to separator characters. -/
theorem isSep_nfkcChar_of_isSep {c : Char} (h : isSep c = true) :
    isSep (nfkcChar c) = true := by
  rw [isSep_iff] at h ⊢
  rw [nfkcChar_toNat]
  rcases h with h | h | h | h | h | h | h | h | h | h | h | h | h | h | h | h | h <;>
    simp [h] <;> omega

/-- hiragana→katakana maps separator characters to separator characters
(separators are not hiragana, so it is the identity on them). -/
theorem isSep_hiraToKata_of_isSep {c : Char} (h : isSep c = true) :
    isSep (hiraToKata c) = true := by
  rw [isSep_iff] at h ⊢
  rw [hiraToKata_toNat]
  rcases h with h | h | h | h | h | h | h | h | h | h | h | h | h | h | h | h | h <;>
    simp [h] <;> omega

theorem hiraToKata_eq_self {c : Char} (h : ¬(0x3041 ≤ c.toNat ∧ c.toNat ≤ 0x3096)) :
    hiraToKata c = c := by
  unfold hiraToKata
  rw [if_neg h]

/-- hiragana→katakana preserves whitespace-status in both directions. -/
theorem isPySpace_hiraToKata (c : Char) : isPySpace (hiraToKata c) = isPySpace c := by
  by_cases h : 0x3041 ≤ c.toNat ∧ c.toNat ≤ 0x3096
  · have h1 : (hiraToKata c).toNat = c.toNat + 0x60 := by rw [hiraToKata_toNat, if_pos h]
    have h4 : isPySpace (hiraToKata c) = false := by
      rw [Bool.eq_false_iff]
      intro hc
      rw [isPySpace_iff] at hc
      omega
    have h5 : isPySpace c = false := by
      rw [Bool.eq_false_iff]
      intro hc
      rw [isPySpace_iff] at hc
      omega
    rw [h4, h5]
  · rw [hiraToKata_eq_self h]

theorem isSep_pipeChar_of_isSep {c : Char} (h : isSep c = true) :
    isSep (pipeChar c) = true :=
  isSep_hiraToKata_of_isSep (isSep_nfkcChar_of_isSep h)

/-- NFKC is the identity on hiragana and katakana of the relevant blocks. -/
theorem nfkcChar_id_of_kana {c : Char} (h : 0x3041 ≤ c.toNat ∧ c.toNat ≤ 0x30F6) :
    nfkcChar c = c := by
  unfold nfkcChar
  rw [if_neg (by omega), if_neg (by omega)]

/-- hiragana→katakana is idempotent-compatible with the pipeline:
`pipeChar ∘ hiraToKata = pipeChar` pointwise. -/
theorem pipeChar_hiraToKata (c : Char) : pipeChar (hiraToKata c) = pipeChar c := by
  by_cases h : 0x3041 ≤ c.toNat ∧ c.toNat ≤ 0x3096
  · have hk : (hiraToKata c).toNat = c.toNat + 0x60 := by rw [hiraToKata_toNat, if_pos h]
    have h1 : nfkcChar (hiraToKata c) = hiraToKata c := nfkcChar_id_of_kana (by omega)
    have h2 : nfkcChar c = c := nfkcChar_id_of_kana (by omega)
    have h3 : hiraToKata (hiraToKata c) = hiraToKata c := hiraToKata_eq_self (by omega)
    unfold pipeChar
    rw [h1, h2, h3]
  · unfold pipeChar
    rw [hiraToKata_eq_self h]

/-- Filtering out separators ignores characters whose image is a
separator; hence the result only depends on the non-separator characters
of the input. -/
theorem filter_map_pipe_eq_filter_map_pipe_filter (u : List Char) :
    (u.map pipeChar).filter (fun c => !isSep c) =
      ((u.filter (fun c => !isSep c)).map pipeChar).filter (fun c => !isSep c) := by
  induction u with
  | nil => rfl
  | cons c u ih =>
    cases hc : isSep c with
    | true =>
      have hpc : isSep (pipeChar c) = true := isSep_pipeChar_of_isSep hc
      simp [List.filter_cons, hc, hpc, ih]
    | false =>
      cases hpc : isSep (pipeChar c) <;> simp [List.filter_cons, hc, hpc, ih]

/-- Stripping whitespace does not change the non-separator characters. -/
theorem filter_pyStripChars (u : List Char) :
    (pyStripChars u).filter (fun c => !isSep c) = u.filter (fun c => !isSep c) := by
  unfold pyStripChars
  have drop : ∀ v : List Char,
      (v.dropWhile isPySpace).filter (fun c => !isSep c) = v.filter (fun c => !isSep c) := by
    intro v
    induction v with
    | nil => rfl
    | cons c v ih =>
      by_cases h : isPySpace c = true
      · have hs : isSep c = true := by rw [isSep]; simp [h]
        simp [List.dropWhile_cons, h, List.filter_cons, hs, ih]
      · simp [List.dropWhile_cons, h]
  rw [List.filter_reverse, drop, List.filter_reverse, drop, List.reverse_reverse]

/-- The pre-alias key of a label is a function of its non-separator
characters alone. -/
theorem normKey_eq_of_filter_eq {s t : String}
    (h : s.data.filter (fun c => !isSep c) = t.data.filter (fun c => !isSep c)) :
    normKeyS s = normKeyS t := by
  unfold normKeyS normalize_for_merge
  simp only
  have key : ∀ u : List Char,
      List.filter (fun c => !isSep c) (List.map hiraToKata (List.map nfkcChar (pyStripChars u))) =
        List.filter (fun c => !isSep c)
          (List.map pipeChar (List.filter (fun c => !isSep c) u)) := by
    intro u
    rw [List.map_map]
    have hcomp : (pyStripChars u).map (hiraToKata ∘ nfkcChar) = (pyStripChars u).map pipeChar := rfl
    rw [hcomp, filter_map_pipe_eq_filter_map_pipe_filter, filter_pyStripChars]
  rw [key s.data, key t.data, h]

/-- Replacing every hiragana character by its katakana counterpart does not
change the merge key. -/
theorem normKey_map_hiraToKata (s : String) :
    normKeyS ⟨s.data.map hiraToKata⟩ = normKeyS s := by
  unfold normKeyS normalize_for_merge
  simp only
  have hp : (isPySpace ∘ hiraToKata) = isPySpace := funext isPySpace_hiraToKata
  have e1 : ∀ v : List Char, (v.map hiraToKata).dropWhile isPySpace
      = (v.dropWhile isPySpace).map hiraToKata := by
    intro v
    rw [List.dropWhile_map, hp]
  have e2 : ∀ v : List Char, (v.map hiraToKata).reverse = v.reverse.map hiraToKata := by
    intro v
    simp
  have strip_comm : pyStripChars (s.data.map hiraToKata) = (pyStripChars s.data).map hiraToKata := by
    unfold pyStripChars
    rw [e1, e2, e1, e2]
  rw [strip_comm]
  have pipe_eq : (((pyStripChars s.data).map hiraToKata).map nfkcChar).map hiraToKata =
      (((pyStripChars s.data)).map nfkcChar).map hiraToKata := by
    rw [List.map_map, List.map_map, List.map_map]
    apply List.map_congr_left
    intro c _
    exact pipeChar_hiraToKata c
  rw [pipe_eq]

/-- C7: `normalize` is a pure total function: non-text (`other`) and empty
input yield the empty key and no input fails; it is reflexive; two labels
differing only by the defined separator characters get equal keys; two
labels differing only by hiragana/katakana spelling (equal images under
the hiragana→katakana map) get equal keys; `"パッケージング"` and `"パケ"`
normalize equal via the alias table, and `"候補 A"` normalizes equal to
`"候補A"`. -/
theorem normalize_for_merge_key_equivalence :
    normalize_for_merge .other = "" ∧
    normKeyS "" = "" ∧
    (∀ a : PyVal, normalize_for_merge a = normalize_for_merge a) ∧
    (∀ s t : String,
      s.data.filter (fun c => !isSep c) = t.data.filter (fun c => !isSep c) →
      normKeyS s = normKeyS t) ∧
    (∀ s t : String, s.data.map hiraToKata = t.data.map hiraToKata →
      normKeyS s = normKeyS t) ∧
    normKeyS "パッケージング" = normKeyS "パケ" ∧
    normKeyS "候補 A" = normKeyS "候補A" := by
  refine ⟨rfl, by decide, fun a => rfl, fun s t h => normKey_eq_of_filter_eq h, ?_, by decide, by decide⟩
  intro s t h
  have hs := normKey_map_hiraToKata s
  have ht := normKey_map_hiraToKata t
  rw [← hs, ← ht, h]

/-- Witness for C7: the separator and hiragana/katakana hypotheses are
discharged at concrete inputs. -/
theorem normalize_for_merge_key_equivalence_witness :
    normKeyS "候補 A" = normKeyS "候補A" ∧ normKeyS "ぱけ" = normKeyS "パケ" :=
  ⟨normalize_for_merge_key_equivalence.2.2.2.1 "候補 A" "候補A" (by decide),
   normalize_for_merge_key_equivalence.2.2.2.2.1 "ぱけ" "パケ" (by decide)⟩

theorem lookup_cons_self {β : Type} (a : String) (b : β) (l : List (String × β)) :
    ((a, b) :: l).lookup a = some b := by
  simp [List.lookup]

theorem lookup_cons_ne {β : Type} {k a : String} (b : β) (l : List (String × β))
    (h : ¬ k = a) : ((a, b) :: l).lookup k = l.lookup k := by
  simp [List.lookup, show (k == a) = false by simpa using h]

theorem lookup_bumpStat (stats : List (String × Tally)) (c k : String) (f : Tally → Tally) :
    (bumpStat stats c f).lookup k =
      (stats.lookup k).map (fun t => if k = c then f t else t) := by
  induction stats with
  | nil => rfl
  | cons p stats ih =>
    obtain ⟨a, t⟩ := p
    have hb : bumpStat ((a, t) :: stats) c f =
        (if a = c then (a, f t) else (a, t)) :: bumpStat stats c f := rfl
    rw [hb]
    by_cases hac : a = c
    · rw [if_pos hac]
      by_cases hka : k = a
      · rw [hka, lookup_cons_self, lookup_cons_self]
        simp [hac]
      · rw [lookup_cons_ne _ _ hka, lookup_cons_ne _ _ hka, ih]
    · rw [if_neg hac]
      by_cases hka : k = a
      · rw [hka, lookup_cons_self, lookup_cons_self]
        simp [hac]
      · rw [lookup_cons_ne _ _ hka, lookup_cons_ne _ _ hka, ih]

theorem lookup_voteStep (stats : List (String × Tally)) (v : Vote) (k : String) :
    (voteStep stats v).lookup k = (stats.lookup k).map (voteTally k v) := by
  unfold voteStep
  rw [lookup_bumpStat, lookup_bumpStat, lookup_bumpStat, Option.map_map, Option.map_map]
  congr 1
  funext t
  simp only [Function.comp]
  have flip : ∀ (a : String) (g : Tally → Tally) (x : Tally),
      (if k = a then g x else x) = (if a = k then g x else x) := by
    intro a g x
    by_cases h : k = a
    · rw [if_pos h, if_pos h.symm]
    · rw [if_neg h, if_neg (fun hh => h hh.symm)]
  simp only [flip]
  rfl

theorem lookup_foldl_voteStep (votes : List Vote) (stats : List (String × Tally)) (k : String) :
    ((votes.foldl voteStep stats).lookup k) =
      (stats.lookup k).map (fun t => votes.foldl (fun a v => voteTally k v a) t) := by
  induction votes generalizing stats with
  | nil => simp
  | cons v votes ih =>
    rw [List.foldl_cons, ih, lookup_voteStep, Option.map_map]
    simp only [List.foldl_cons]
    rfl

theorem lookup_init_scope (scope : List String) (k : String) :
    ((scope.map (fun cid => (cid, (⟨0, 0, 0, 0⟩ : Tally)))).lookup k) =
      if k ∈ scope then some ⟨0, 0, 0, 0⟩ else none := by
  induction scope with
  | nil => rfl
  | cons c scope ih =>
    by_cases h : k = c
    · subst h
      simp [List.lookup]
    · have hbeq : (k == c) = false := by simpa using h
      simp [List.lookup, hbeq, h, ih]

/-- The stats dictionary holds exactly the scoped ids, each mapped to its
accumulated tally. -/
theorem lookup_aggStatsList (cands : List Candidate) (votes : List Vote)
    (includeInactive : Bool) (k : String) :
    (aggStatsList cands votes includeInactive).lookup k =
      if k ∈ scopeIds cands includeInactive then some (tallyFor k votes) else none := by
  unfold aggStatsList tallyFor
  rw [lookup_foldl_voteStep, lookup_init_scope]
  by_cases h : k ∈ scopeIds cands includeInactive <;> simp [h]

/-- Closed form of a candidate's tally: 3/2/1 points and one first/second/
third count per vote whose corresponding slot equals the candidate id. -/
theorem tallyFor_counts (cid : String) (votes : List Vote) :
    tallyFor cid votes =
      { points := 3 * votes.countP (fun v => v.firstId == cid) +
          2 * votes.countP (fun v => v.secondId == cid) +
          votes.countP (fun v => v.thirdId == cid),
        first := votes.countP (fun v => v.firstId == cid),
        second := votes.countP (fun v => v.secondId == cid),
        third := votes.countP (fun v => v.thirdId == cid) } := by
  suffices h : ∀ t : Tally, votes.foldl (fun a v => voteTally cid v a) t =
      { points := t.points + (3 * votes.countP (fun v => v.firstId == cid) +
          2 * votes.countP (fun v => v.secondId == cid) +
          votes.countP (fun v => v.thirdId == cid)),
        first := t.first + votes.countP (fun v => v.firstId == cid),
        second := t.second + votes.countP (fun v => v.secondId == cid),
        third := t.third + votes.countP (fun v => v.thirdId == cid) } by
    unfold tallyFor
    rw [h]
    simp
  induction votes with
  | nil =>
    intro t
    obtain ⟨p, a, b, c⟩ := t
    simp [List.countP_nil]
  | cons v votes ih =>
    intro t
    rw [List.foldl_cons, ih]
    unfold voteTally addFirst addSecond addThird
    by_cases h1 : v.firstId = cid <;> by_cases h2 : v.secondId = cid <;>
      by_cases h3 : v.thirdId = cid <;>
      simp [h1, h2, h3, List.countP_cons, Tally.mk.injEq] <;> omega

theorem map_fst_bumpStat (stats : List (String × Tally)) (c : String) (f : Tally → Tally) :
    (bumpStat stats c f).map Prod.fst = stats.map Prod.fst := by
  unfold bumpStat
  rw [List.map_map]
  apply List.map_congr_left
  intro p _
  by_cases h : p.1 = c <;> simp [h]

theorem map_fst_voteStep (stats : List (String × Tally)) (v : Vote) :
    (voteStep stats v).map Prod.fst = stats.map Prod.fst := by
  unfold voteStep
  rw [map_fst_bumpStat, map_fst_bumpStat, map_fst_bumpStat]

/-- The keys of the stats dictionary are exactly the scope, in order. -/
theorem map_fst_aggStatsList (cands : List Candidate) (votes : List Vote)
    (includeInactive : Bool) :
    (aggStatsList cands votes includeInactive).map Prod.fst = scopeIds cands includeInactive := by
  unfold aggStatsList
  have gen : ∀ (vs : List Vote) (stats : List (String × Tally)),
      (vs.foldl voteStep stats).map Prod.fst = stats.map Prod.fst := by
    intro vs
    induction vs with
    | nil => intro stats; rfl
    | cons v vs ih =>
      intro stats
      rw [List.foldl_cons, ih, map_fst_voteStep]
  rw [gen, List.map_map]
  have hid : (Prod.fst ∘ fun cid : String => (cid, (⟨0, 0, 0, 0⟩ : Tally))) = (id : String → String) := rfl
  rw [hid, List.map_id]

/-- `if cid in stats:` — the update is a no-op when the key is absent. -/
theorem bumpStat_eq_self (stats : List (String × Tally)) (c : String) (f : Tally → Tally)
    (h : ∀ p ∈ stats, p.1 ≠ c) : bumpStat stats c f = stats := by
  unfold bumpStat
  conv_rhs => rw [← List.map_id stats]
  apply List.map_congr_left
  intro p hp
  simp [h p hp]

/-- A vote whose three slots are all outside the dictionary's key set
leaves the stats unchanged. -/
theorem voteStep_eq_self (stats : List (String × Tally)) (v : Vote)
    (h1 : ∀ p ∈ stats, p.1 ≠ v.firstId) (h2 : ∀ p ∈ stats, p.1 ≠ v.secondId)
    (h3 : ∀ p ∈ stats, p.1 ≠ v.thirdId) : voteStep stats v = stats := by
  unfold voteStep
  rw [bumpStat_eq_self _ _ _ h1, bumpStat_eq_self _ _ _ h2, bumpStat_eq_self _ _ _ h3]

/-- C3: for every candidate set, vote set and scope choice, aggregation
awards 3 points and a `first` count to a vote's first id, 2 points and a
`second` count to its second id, and 1 point and a `third` count to its
third id, counting a slot only when the slot's id is in scope: a scoped id's
stats entry is exactly the 3/2/1-weighted slot counts, an out-of-scope id
has no entry at all, and a vote all of whose slots are out of scope
(including dangling ids) leaves every tally unchanged; the aggregation is a
total function, so no input raises an error. -/
theorem aggregate_slot_scoring (cands : List Candidate) (votes : List Vote)
    (includeInactive : Bool) (cid : String) :
    (cid ∈ scopeIds cands includeInactive →
      (aggStatsList cands votes includeInactive).lookup cid = some (slotCounts cid votes)) ∧
    (cid ∉ scopeIds cands includeInactive →
      (aggStatsList cands votes includeInactive).lookup cid = none) ∧
    (∀ v : Vote, v.firstId ∉ scopeIds cands includeInactive →
      v.secondId ∉ scopeIds cands includeInactive →
      v.thirdId ∉ scopeIds cands includeInactive →
      aggStatsList cands (votes ++ [v]) includeInactive =
        aggStatsList cands votes includeInactive) := by
  refine ⟨?_, ?_, ?_⟩
  · intro hmem
    rw [lookup_aggStatsList, if_pos hmem, tallyFor_counts]
    rfl
  · intro hmem
    rw [lookup_aggStatsList, if_neg hmem]
  · intro v hv1 hv2 hv3
    unfold aggStatsList
    rw [List.foldl_append, List.foldl_cons, List.foldl_nil]
    have hkeys := map_fst_aggStatsList cands votes includeInactive
    unfold aggStatsList at hkeys
    apply voteStep_eq_self
    · intro p hp heq
      exact hv1 (by rw [← hkeys]; exact heq ▸ List.mem_map_of_mem Prod.fst hp)
    · intro p hp heq
      exact hv2 (by rw [← hkeys]; exact heq ▸ List.mem_map_of_mem Prod.fst hp)
    · intro p hp heq
      exact hv3 (by rw [← hkeys]; exact heq ▸ List.mem_map_of_mem Prod.fst hp)

/-- Witness for C3, at a one-candidate scope with one counted vote and one
fully-dangling vote. -/
theorem aggregate_slot_scoring_witness :
    (aggStatsList [⟨"a", "A", true⟩] [⟨"n", "e", "a", "x", "y", "t"⟩] false).lookup "a" =
        some ⟨3, 1, 0, 0⟩ ∧
    (aggStatsList [⟨"a", "A", true⟩] [⟨"n", "e", "a", "x", "y", "t"⟩] false).lookup "z" = none ∧
    aggStatsList [⟨"a", "A", true⟩]
        ([⟨"n", "e", "a", "x", "y", "t"⟩] ++ [⟨"m", "f", "z", "w", "q", "u"⟩]) false =
      aggStatsList [⟨"a", "A", true⟩] [⟨"n", "e", "a", "x", "y", "t"⟩] false := by
  refine ⟨?_, ?_, ?_⟩
  · have h := (aggregate_slot_scoring [⟨"a", "A", true⟩] [⟨"n", "e", "a", "x", "y", "t"⟩]
      false "a").1 (by decide)
    rw [h]
    decide
  · exact (aggregate_slot_scoring [⟨"a", "A", true⟩] [⟨"n", "e", "a", "x", "y", "t"⟩]
      false "z").2.1 (by decide)
  · exact (aggregate_slot_scoring [⟨"a", "A", true⟩] [⟨"n", "e", "a", "x", "y", "t"⟩]
      false "z").2.2 ⟨"m", "f", "z", "w", "q", "u"⟩ (by decide) (by decide) (by decide)

theorem charsLe_refl (x : List Char) : charsLe x x = true := by
  induction x with
  | nil => rfl
  | cons a as ih => simp [charsLe, ih]

theorem charsLe_total (x y : List Char) : charsLe x y = true ∨ charsLe y x = true := by
  induction x generalizing y with
  | nil => left; rfl
  | cons a as ih =>
    cases y with
    | nil => right; rfl
    | cons b bs =>
      by_cases hab : a = b
      · subst hab
        rcases ih bs with h | h
        · left; simp [charsLe, h]
        · right; simp [charsLe, h]
      · have hba : ¬ b = a := fun h => hab h.symm
        have hne : a.toNat ≠ b.toNat := fun h => hab (Char.ext (UInt32.ext h))
        rcases Nat.lt_or_ge a.toNat b.toNat with h | h
        · left; simp [charsLe, hab, h]
        · right
          simp [charsLe, hba]
          omega

theorem charsLe_trans {x y z : List Char} (h1 : charsLe x y = true)
    (h2 : charsLe y z = true) : charsLe x z = true := by
  induction x generalizing y z with
  | nil => rfl
  | cons a as ih =>
    cases y with
    | nil => simp [charsLe] at h1
    | cons b bs =>
      cases z with
      | nil => simp [charsLe] at h2
      | cons c cs =>
        by_cases hab : a = b <;> by_cases hbc : b = c
        · subst hab; subst hbc
          simp [charsLe] at h1 h2 ⊢
          exact ih h1 h2
        · subst hab
          simp [charsLe, hbc] at h2 ⊢
          exact h2
        · subst hbc
          simp [charsLe, hab] at h1 ⊢
          exact h1
        · simp [charsLe, hab, hbc] at h1 h2
          have hac : a.toNat < c.toNat := Nat.lt_trans h1 h2
          have hneq : ¬ a = c := by
            intro h
            subst h
            omega
          simp [charsLe, hneq, hac]

/-- Unfolded characterisation of the five-key comparison. -/
theorem keyLE_iff (a b : AggRow) : keyLE a b = true ↔
    (b.points < a.points ∨ (a.points = b.points ∧
      (b.first < a.first ∨ (a.first = b.first ∧
        (b.second < a.second ∨ (a.second = b.second ∧
          (b.third < a.third ∨ (a.third = b.third ∧
            charsLe a.label.data b.label.data = true)))))))) := by
  unfold keyLE
  by_cases h1 : a.points = b.points <;> by_cases h2 : a.first = b.first <;>
    by_cases h3 : a.second = b.second <;> by_cases h4 : a.third = b.third <;>
    simp [h1, h2, h3, h4] <;> omega

theorem keyLE_of_rowKey_eq {a b : AggRow} (h : rowKey a = rowKey b) : keyLE a b = true := by
  simp only [rowKey, Prod.mk.injEq] at h
  obtain ⟨h1, h2, h3, h4, h5⟩ := h
  unfold keyLE
  rw [h1, h2, h3, h4, h5]
  simp [charsLe_refl]

theorem keyLE_total (a b : AggRow) : keyLE a b = true ∨ keyLE b a = true := by
  rw [keyLE_iff, keyLE_iff]
  rcases Nat.lt_trichotomy b.points a.points with h | h | h
  · exact Or.inl (Or.inl h)
  · rcases Nat.lt_trichotomy b.first a.first with h2 | h2 | h2
    · exact Or.inl (Or.inr ⟨h.symm, Or.inl h2⟩)
    · rcases Nat.lt_trichotomy b.second a.second with h3 | h3 | h3
      · exact Or.inl (Or.inr ⟨h.symm, Or.inr ⟨h2.symm, Or.inl h3⟩⟩)
      · rcases Nat.lt_trichotomy b.third a.third with h4 | h4 | h4
        · exact Or.inl (Or.inr ⟨h.symm, Or.inr ⟨h2.symm, Or.inr ⟨h3.symm, Or.inl h4⟩⟩⟩)
        · rcases charsLe_total a.label.data b.label.data with h5 | h5
          · exact Or.inl (Or.inr ⟨h.symm, Or.inr ⟨h2.symm, Or.inr ⟨h3.symm,
              Or.inr ⟨h4.symm, h5⟩⟩⟩⟩)
          · exact Or.inr (Or.inr ⟨h, Or.inr ⟨h2, Or.inr ⟨h3, Or.inr ⟨h4, h5⟩⟩⟩⟩)
        · exact Or.inr (Or.inr ⟨h, Or.inr ⟨h2, Or.inr ⟨h3, Or.inl h4⟩⟩⟩)
      · exact Or.inr (Or.inr ⟨h, Or.inr ⟨h2, Or.inl h3⟩⟩)
    · exact Or.inr (Or.inr ⟨h, Or.inl h2⟩)
  · exact Or.inr (Or.inl h)

theorem keyLE_trans {a b c : AggRow} (h1 : keyLE a b = true) (h2 : keyLE b c = true) :
    keyLE a c = true := by
  rw [keyLE_iff] at h1 h2 ⊢
  rcases h1 with h1 | ⟨e1, h1⟩
  · left
    rcases h2 with h2 | ⟨e2, _⟩ <;> omega
  · rcases h2 with h2 | ⟨e2, h2⟩
    · left; omega
    · refine Or.inr ⟨by omega, ?_⟩
      rcases h1 with h1 | ⟨f1, h1⟩
      · left
        rcases h2 with h2 | ⟨f2, _⟩ <;> omega
      · rcases h2 with h2 | ⟨f2, h2⟩
        · left; omega
        · refine Or.inr ⟨by omega, ?_⟩
          rcases h1 with h1 | ⟨g1, h1⟩
          · left
            rcases h2 with h2 | ⟨g2, _⟩ <;> omega
          · rcases h2 with h2 | ⟨g2, h2⟩
            · left; omega
            · refine Or.inr ⟨by omega, ?_⟩
              rcases h1 with h1 | ⟨k1, h1⟩
              · left
                rcases h2 with h2 | ⟨k2, _⟩ <;> omega
              · rcases h2 with h2 | ⟨k2, h2⟩
                · left; omega
                · exact Or.inr ⟨by omega, charsLe_trans h1 h2⟩

theorem mem_insertRow {x a : AggRow} {l : List AggRow} :
    x ∈ insertRow a l ↔ x = a ∨ x ∈ l := by
  induction l with
  | nil => simp [insertRow]
  | cons b bs ih =>
    unfold insertRow
    by_cases h : keyLE a b = true
    · simp [h]
    · simp [h, ih]
      tauto

theorem pairwise_insertRow {a : AggRow} {l : List AggRow}
    (hl : l.Pairwise (fun x y => keyLE x y = true)) :
    (insertRow a l).Pairwise (fun x y => keyLE x y = true) := by
  induction l with
  | nil => simp [insertRow]
  | cons b bs ih =>
    unfold insertRow
    rcases List.pairwise_cons.mp hl with ⟨hb, hbs⟩
    by_cases h : keyLE a b = true
    · rw [if_pos h]
      refine List.pairwise_cons.mpr ⟨?_, hl⟩
      intro y hy
      rcases List.mem_cons.mp hy with rfl | hy
      · exact h
      · exact keyLE_trans h (hb y hy)
    · rw [if_neg h]
      refine List.pairwise_cons.mpr ⟨?_, ih hbs⟩
      intro y hy
      rcases mem_insertRow.mp hy with rfl | hy
      · rcases keyLE_total y b with hab2 | hab2
        · exact absurd hab2 h
        · exact hab2
      · exact hb y hy

theorem sortRows_pairwise (l : List AggRow) :
    (sortRows l).Pairwise (fun x y => keyLE x y = true) := by
  induction l with
  | nil => exact List.Pairwise.nil
  | cons a as ih => exact pairwise_insertRow ih

theorem insertRow_perm (a : AggRow) (l : List AggRow) :
    (insertRow a l).Perm (a :: l) := by
  induction l with
  | nil => exact List.Perm.refl _
  | cons b bs ih =>
    unfold insertRow
    by_cases h : keyLE a b = true
    · rw [if_pos h]
    · rw [if_neg h]
      exact (ih.cons b).trans (List.Perm.swap a b bs)

theorem sortRows_perm (l : List AggRow) : (sortRows l).Perm l := by
  induction l with
  | nil => exact List.Perm.refl _
  | cons a as ih =>
    have h1 : sortRows (a :: as) = insertRow a (sortRows as) := rfl
    rw [h1]
    exact (insertRow_perm a (sortRows as)).trans (ih.cons a)

theorem filter_insertRow (k : Nat × Nat × Nat × Nat × String) (a : AggRow) (l : List AggRow) :
    (insertRow a l).filter (fun r => rowKey r == k) =
      if rowKey a == k then a :: l.filter (fun r => rowKey r == k)
      else l.filter (fun r => rowKey r == k) := by
  induction l with
  | nil =>
    unfold insertRow
    by_cases h : rowKey a == k <;> simp [List.filter, h]
  | cons b bs ih =>
    unfold insertRow
    by_cases hab : keyLE a b = true
    · rw [if_pos hab]
      by_cases h : rowKey a == k <;> simp [List.filter_cons, h]
    · rw [if_neg hab]
      have hbk : ¬ (rowKey b == k ∧ rowKey a == k) := by
        rintro ⟨hb, ha⟩
        have : rowKey a = rowKey b := by
          have hb' : rowKey b = k := by simpa using hb
          have ha' : rowKey a = k := by simpa using ha
          rw [hb', ha']
        exact hab (keyLE_of_rowKey_eq this)
      by_cases hak : rowKey a == k
      · have hbk' : (rowKey b == k) = false := by
          cases hb : (rowKey b == k)
          · rfl
          · exact absurd ⟨hb, hak⟩ hbk
        rw [if_pos hak]
        rw [List.filter_cons_of_neg (by simp [hbk']), List.filter_cons_of_neg (by simp [hbk']),
          ih, if_pos hak]
      · have hak' : (rowKey a == k) = false := Bool.eq_false_iff.mpr hak
        rw [if_neg hak]
        by_cases hbk2 : rowKey b == k
        · rw [List.filter_cons_of_pos (by simpa using hbk2),
            List.filter_cons_of_pos (by simpa using hbk2), ih, if_neg hak]
        · rw [List.filter_cons_of_neg (by simpa using hbk2),
            List.filter_cons_of_neg (by simpa using hbk2), ih, if_neg hak]

/-- The stable sort preserves the relative order of rows with equal keys:
the subsequence of any fixed key is unchanged. -/
theorem sortRows_stable (l : List AggRow) (k : Nat × Nat × Nat × Nat × String) :
    (sortRows l).filter (fun r => rowKey r == k) = l.filter (fun r => rowKey r == k) := by
  induction l with
  | nil => rfl
  | cons a as ih =>
    have : sortRows (a :: as) = insertRow a (sortRows as) := rfl
    rw [this, filter_insertRow]
    by_cases h : rowKey a == k
    · rw [if_pos h, ih, List.filter_cons_of_pos (by simpa using h)]
    · rw [if_neg h, ih, List.filter_cons_of_neg (by simpa using h)]

/-- C4 (amended): the aggregated leaderboard is sorted descending by
points, then first, then second, then third count, with ascending display
label (code-point order) as the only remaining tie-break — ids are not
among the sort keys (`keyLE` reads only the five `rowKey` fields); the
result is a permutation of the stats rows; full five-key ties keep the
pre-sort enumeration order (stable sort); ranks are exactly 1..n in
order; and an empty scope yields an empty, well-typed result.  (The
original claim also asserted that an empty vote set yields an empty
result; the code instead emits one zero row per scoped candidate — see
the counterexample.) -/
theorem aggregate_ordering (cands : List Candidate) (votes : List Vote)
    (includeInactive : Bool) :
    (aggregate cands votes includeInactive).Pairwise (fun a b => keyLE a b = true) ∧
    (aggregate cands votes includeInactive).Perm (aggRows cands votes includeInactive) ∧
    (∀ k, (aggregate cands votes includeInactive).filter (fun r => rowKey r == k) =
      (aggRows cands votes includeInactive).filter (fun r => rowKey r == k)) ∧
    ((aggregateRanked cands votes includeInactive).map Prod.fst =
      List.range' 1 (aggregate cands votes includeInactive).length) ∧
    (scopeIds cands includeInactive = [] → aggregate cands votes includeInactive = []) := by
  refine ⟨sortRows_pairwise _, sortRows_perm _, fun k => sortRows_stable _ k, ?_, ?_⟩
  · have e1 : (aggregateRanked cands votes includeInactive).map Prod.fst
        = ((aggregate cands votes includeInactive).enum.map Prod.fst).map (· + 1) := by
      unfold aggregateRanked
      rw [List.map_map, List.map_map]
      rfl
    rw [e1, List.enum_map_fst]
    simp [List.range'_eq_map_range]
    intro a _
    omega
  · intro hscope
    have hfold : ∀ vs : List Vote, vs.foldl voteStep [] = [] := by
      intro vs
      induction vs with
      | nil => rfl
      | cons v vs ih => rw [List.foldl_cons]; exact ih
    unfold aggregate aggRows aggStatsList
    rw [hscope]
    rw [show (([] : List String).map (fun cid => (cid, (⟨0, 0, 0, 0⟩ : Tally)))) =
      [] from rfl, hfold]
    rfl

/-- Counterexample to C4 as stated: with one active candidate and an empty
vote set, `aggregate` returns one zero row, not an empty result. -/
theorem aggregate_empty_votes_not_empty :
    aggregate [⟨"a", "A", true⟩] [] true = [⟨"A", 0, 0, 0, 0⟩] ∧
    aggregate [⟨"a", "A", true⟩] [] true ≠ [] := by
  constructor
  · decide
  · decide

/-- Witness for C4: the empty-scope implication discharged at a concrete
input. -/
theorem aggregate_ordering_witness : aggregate [] [] true = [] :=
  (aggregate_ordering [] [] true).2.2.2.2 rfl

theorem dedupByIdSeen_eq_self (cs : List Candidate) (seen : List String)
    (hnd : (cs.map (·.id)).Nodup) (hdisj : ∀ c ∈ cs, c.id ∉ seen) :
    dedupByIdSeen seen cs = cs := by
  induction cs generalizing seen with
  | nil => rfl
  | cons c rest ih =>
    unfold dedupByIdSeen
    rw [if_neg (hdisj c (List.mem_cons_self c rest))]
    rw [List.map_cons, List.nodup_cons] at hnd
    congr 1
    apply ih _ hnd.2
    intro d hd
    intro hmem
    rcases List.mem_cons.mp hmem with h | h
    · exact hnd.1 (h ▸ List.mem_map_of_mem (·.id) hd)
    · exact hdisj d (List.mem_cons_of_mem c hd) h

theorem save_candidates_eq_self {cs : List Candidate} (hnd : (cs.map (·.id)).Nodup) :
    save_candidates cs = cs :=
  dedupByIdSeen_eq_self cs [] hnd (fun _ _ h => (List.not_mem_nil _ h))

/-- Updating id-preserving fields does not change the id column. -/
theorem map_id_update (cands : List Candidate) (bid labelS : String) (act : Bool) :
    ((cands.map (fun c => if c.id = bid then (⟨c.id, labelS, act⟩ : Candidate) else c)).map (·.id))
      = cands.map (·.id) := by
  rw [List.map_map]
  apply List.map_congr_left
  intro c _
  by_cases h : c.id = bid <;> simp [h]

/-- The sequential per-duplicate replacement loop equals one simultaneous
multi-replacement. -/
theorem foldl_replace_eq_multi (ds : List String) (newId : String) (votes : List Vote) :
    ds.foldl (fun vs d => vs.map (replaceVote d newId)) votes =
      votes.map (replaceMulti ds newId) := by
  induction ds generalizing votes with
  | nil =>
    rw [List.foldl_nil]
    conv_lhs => rw [← List.map_id votes]
    apply List.map_congr_left
    intro v _
    show id v = replaceMulti [] newId v
    unfold replaceMulti
    simp
  | cons d ds ih =>
    rw [List.foldl_cons, ih, List.map_map]
    apply List.map_congr_left
    intro v _
    have hfield : ∀ x : String,
        (if (if x = d then newId else x) ∈ ds then newId else (if x = d then newId else x)) =
          if x ∈ d :: ds then newId else x := by
      intro x
      by_cases hxd : x = d
      · subst hxd
        by_cases hn : newId ∈ ds <;> simp [hn]
      · simp [hxd, List.mem_cons]
    show replaceMulti ds newId (replaceVote d newId v) = replaceMulti (d :: ds) newId v
    unfold replaceMulti replaceVote
    simp only
    rw [hfield v.firstId, hfield v.secondId, hfield v.thirdId]

theorem countP_ite_replace (l : List Vote) (g : Vote → String) (surv dup : String)
    (h : ¬ surv = dup) :
    l.countP (fun v => (if g v = dup then surv else g v) == surv) =
      l.countP (fun v => g v == surv) + l.countP (fun v => g v == dup) := by
  induction l with
  | nil => rfl
  | cons v l ih =>
    rw [List.countP_cons, List.countP_cons, List.countP_cons, ih]
    by_cases hd : g v = dup
    · have h' : ¬ dup = surv := fun hh => h hh.symm
      simp [hd, h']
      omega
    · by_cases hs : g v = surv <;> simp [hd, hs, h] <;> omega

/-- Repointing one removed id onto the survivor makes the survivor's tally
the sum of both pre-merge tallies. -/
theorem tallyFor_map_replaceVote (surv dup : String) (votes : List Vote)
    (h : ¬ surv = dup) :
    tallyFor surv (votes.map (replaceVote dup surv)) =
      addT (tallyFor surv votes) (tallyFor dup votes) := by
  rw [tallyFor_counts, tallyFor_counts, tallyFor_counts]
  have e1 : (votes.map (replaceVote dup surv)).countP (fun v => v.firstId == surv)
      = votes.countP (fun v => (if v.firstId = dup then surv else v.firstId) == surv) := by
    rw [List.countP_map]
    rfl
  have e2 : (votes.map (replaceVote dup surv)).countP (fun v => v.secondId == surv)
      = votes.countP (fun v => (if v.secondId = dup then surv else v.secondId) == surv) := by
    rw [List.countP_map]
    rfl
  have e3 : (votes.map (replaceVote dup surv)).countP (fun v => v.thirdId == surv)
      = votes.countP (fun v => (if v.thirdId = dup then surv else v.thirdId) == surv) := by
    rw [List.countP_map]
    rfl
  have c1 : votes.countP (fun v => (if v.firstId = dup then surv else v.firstId) == surv)
      = votes.countP (fun v => v.firstId == surv) + votes.countP (fun v => v.firstId == dup) :=
    countP_ite_replace votes (fun v => v.firstId) surv dup h
  have c2 : votes.countP (fun v => (if v.secondId = dup then surv else v.secondId) == surv)
      = votes.countP (fun v => v.secondId == surv) + votes.countP (fun v => v.secondId == dup) :=
    countP_ite_replace votes (fun v => v.secondId) surv dup h
  have c3 : votes.countP (fun v => (if v.thirdId = dup then surv else v.thirdId) == surv)
      = votes.countP (fun v => v.thirdId == surv) + votes.countP (fun v => v.thirdId == dup) :=
    countP_ite_replace votes (fun v => v.thirdId) surv dup h
  rw [e1, e2, e3, c1, c2, c3]
  dsimp only [addT]
  simp only [Tally.mk.injEq]
  refine ⟨?_, ?_, ?_, ?_⟩ <;> first
  | trivial
  | omega

theorem nodup_ids_filter_update (cands : List Candidate)
    (hnd : (cands.map (·.id)).Nodup) (bid labelS : String) (act : Bool)
    (g : Candidate → Bool) :
    (((cands.map (fun c => if c.id = bid then (⟨c.id, labelS, act⟩ : Candidate) else c)).filter
        g).map (·.id)).Nodup := by
  have h2 := List.filter_sublist
    (l := cands.map (fun c => if c.id = bid then (⟨c.id, labelS, act⟩ : Candidate) else c))
    (p := g)
  have h3 := h2.map (·.id)
  rw [map_id_update] at h3
  exact List.Nodup.sublist h3 hnd

/-- A conflict list is a filter of the candidate list, so its ids are
nodup whenever the candidate ids are. -/
theorem nodup_ids_of_filter (cands : List Candidate) (p : Candidate → Bool)
    (hnd : (cands.map (·.id)).Nodup) : ((cands.filter p).map (·.id)).Nodup :=
  List.Nodup.sublist ((List.filter_sublist cands).map (·.id)) hnd

/-- C1 (amended): when creating or renaming a candidate to a (stripped)
label collides by normalized key with other live candidates, the survivor
is the first match in existing list order — the renamed id itself when
triggered by rename; every other matched candidate's votes are repointed
to the survivor's id and it is removed from the candidate set (the final
state shows all three id slots rewritten and the matched ids absent); the
survivor's label is set to the new text.  Its active flag is set to true
when triggered by add, but to the edited checkbox value when triggered by
rename (the original claim said true in both cases — see the
counterexample). -/
theorem admin_merge_first_match_survives :
    (∀ (newId labelRaw : String) (cands : List Candidate) (votes : List Vote)
        (base : Candidate) (dups : List Candidate),
      (cands.map (·.id)).Nodup →
      ¬ pyStrip labelRaw = "" →
      addConflicts cands (pyStrip labelRaw) = base :: dups →
      adminAdd newId labelRaw cands votes =
        some ((cands.map (fun c => if c.id = base.id then
              (⟨c.id, pyStrip labelRaw, true⟩ : Candidate) else c)).filter
            (fun c => !((dups.map (·.id)).contains c.id)),
          votes.map (replaceMulti (dups.map (·.id)) base.id)) ∧
      base.id ∈ ((cands.map (fun c => if c.id = base.id then
              (⟨c.id, pyStrip labelRaw, true⟩ : Candidate) else c)).filter
            (fun c => !((dups.map (·.id)).contains c.id))).map (·.id) ∧
      (∀ d ∈ dups, d.id ∉ ((cands.map (fun c => if c.id = base.id then
              (⟨c.id, pyStrip labelRaw, true⟩ : Candidate) else c)).filter
            (fun c => !((dups.map (·.id)).contains c.id))).map (·.id))) ∧
    (∀ (labelRaw : String) (activeBox : Bool) (cands : List Candidate) (votes : List Vote)
        (a : Candidate) (ds : List Candidate),
      (cands.map (·.id)).Nodup →
      a ∈ cands →
      ¬ pyStrip labelRaw = "" →
      saveConflicts cands a.id (pyStrip labelRaw) = ds →
      ds ≠ [] →
      adminSave a.id labelRaw activeBox cands votes =
        some ((cands.map (fun c => if c.id = a.id then
              (⟨c.id, pyStrip labelRaw, activeBox⟩ : Candidate) else c)).filter
            (fun c => !((ds.map (·.id)).contains c.id)),
          votes.map (replaceMulti (ds.map (·.id)) a.id)) ∧
      a.id ∈ ((cands.map (fun c => if c.id = a.id then
              (⟨c.id, pyStrip labelRaw, activeBox⟩ : Candidate) else c)).filter
            (fun c => !((ds.map (·.id)).contains c.id))).map (·.id) ∧
      (∀ d ∈ ds, d.id ∉ ((cands.map (fun c => if c.id = a.id then
              (⟨c.id, pyStrip labelRaw, activeBox⟩ : Candidate) else c)).filter
            (fun c => !((ds.map (·.id)).contains c.id))).map (·.id))) := by
  constructor
  · intro newId labelRaw cands votes base dups hnd hlab hconf
    have hbase_mem : base ∈ cands :=
      List.mem_of_mem_filter (hconf ▸ List.mem_cons_self base dups :
        base ∈ addConflicts cands (pyStrip labelRaw))
    have hconf_nd : ((base :: dups).map (·.id)).Nodup := by
      rw [← hconf]
      exact nodup_ids_of_filter cands _ hnd
    have hbase_nin : base.id ∉ dups.map (·.id) := by
      rw [List.map_cons, List.nodup_cons] at hconf_nd
      exact hconf_nd.1
    refine ⟨?_, ?_, ?_⟩
    · unfold adminAdd
      simp only [if_neg hlab, hconf]
      have hvotes : (if votes.isEmpty then votes
          else dups.foldl (fun vs r => vs.map (replaceVote r.id base.id)) votes) =
          votes.map (replaceMulti (dups.map (·.id)) base.id) := by
        by_cases hv : votes.isEmpty
        · rw [if_pos hv]
          rw [List.isEmpty_iff] at hv
          subst hv
          rfl
        · rw [if_neg hv, ← foldl_replace_eq_multi, List.foldl_map]
      rw [hvotes, save_candidates_eq_self (nodup_ids_filter_update cands hnd _ _ _ _)]
    · have hrow : (⟨base.id, pyStrip labelRaw, true⟩ : Candidate) ∈
          (cands.map (fun c => if c.id = base.id then
            (⟨c.id, pyStrip labelRaw, true⟩ : Candidate) else c)).filter
            (fun c => !((dups.map (·.id)).contains c.id)) := by
        apply List.mem_filter.mpr
        constructor
        · have := List.mem_map_of_mem (fun c => if c.id = base.id then
            (⟨c.id, pyStrip labelRaw, true⟩ : Candidate) else c) hbase_mem
          simpa using this
        · simp only [Bool.not_eq_eq_eq_not, Bool.not_true, ← Bool.not_eq_true]
          intro hmem
          exact hbase_nin (by simpa using hmem)
      exact List.mem_map_of_mem (·.id) hrow
    · intro d hd hmem
      rcases List.mem_map.mp hmem with ⟨c, hc, hcid⟩
      have hg := (List.mem_filter.mp hc).2
      rw [hcid] at hg
      simp only [Bool.not_eq_eq_eq_not, Bool.not_true] at hg
      have hm : d.id ∈ dups.map (·.id) := List.mem_map_of_mem (·.id) hd
      have hcontains : ((dups.map (·.id)).contains d.id) = true := by simpa using hm
      rw [hcontains] at hg
      exact absurd hg (by decide)
  · intro labelRaw activeBox cands votes a ds hnd ha hlab hconf hne
    have hds_ne_cid : ∀ d ∈ ds, d.id ≠ a.id := by
      intro d hd
      have : d ∈ saveConflicts cands a.id (pyStrip labelRaw) := hconf ▸ hd
      have hcond := List.of_mem_filter this
      simp only [Bool.and_eq_true, bne_iff_ne] at hcond
      exact hcond.2
    refine ⟨?_, ?_, ?_⟩
    · unfold adminSave
      simp only [if_neg hlab, hconf]
      have hconf_ne : ds.isEmpty = false := by
        cases ds with
        | nil => exact absurd rfl hne
        | cons x xs => rfl
      have hvotes : (if votes.isEmpty || ds.isEmpty then votes
          else ds.foldl (fun vs r => vs.map (replaceVote r.id a.id)) votes) =
          votes.map (replaceMulti (ds.map (·.id)) a.id) := by
        rw [hconf_ne]
        by_cases hv : votes.isEmpty
        · rw [hv]
          simp only [Bool.true_or, if_pos]
          rw [List.isEmpty_iff] at hv
          subst hv
          rfl
        · rw [Bool.not_eq_true] at hv
          rw [hv]
          simp only [Bool.false_or, if_neg Bool.false_ne_true]
          rw [← foldl_replace_eq_multi, List.foldl_map]
      rw [hvotes, hconf_ne, if_neg (by decide : ¬ (false = true)),
        save_candidates_eq_self (nodup_ids_filter_update cands hnd _ _ _ _)]
    · have hanin : a.id ∉ ds.map (·.id) := by
        intro hmem
        rcases List.mem_map.mp hmem with ⟨d, hd, hdid⟩
        exact hds_ne_cid d hd hdid
      have hrow : (⟨a.id, pyStrip labelRaw, activeBox⟩ : Candidate) ∈
          (cands.map (fun c => if c.id = a.id then
            (⟨c.id, pyStrip labelRaw, activeBox⟩ : Candidate) else c)).filter
            (fun c => !((ds.map (·.id)).contains c.id)) := by
        apply List.mem_filter.mpr
        constructor
        · have := List.mem_map_of_mem (fun c => if c.id = a.id then
            (⟨c.id, pyStrip labelRaw, activeBox⟩ : Candidate) else c) ha
          simpa using this
        · simp only [Bool.not_eq_eq_eq_not, Bool.not_true, ← Bool.not_eq_true]
          intro hmem
          exact hanin (by simpa using hmem)
      exact List.mem_map_of_mem (·.id) hrow
    · intro d hd hmem
      rcases List.mem_map.mp hmem with ⟨c, hc, hcid⟩
      have hg := (List.mem_filter.mp hc).2
      rw [hcid] at hg
      simp only [Bool.not_eq_eq_eq_not, Bool.not_true] at hg
      have hm : d.id ∈ ds.map (·.id) := List.mem_map_of_mem (·.id) hd
      have hcontains : ((ds.map (·.id)).contains d.id) = true := by simpa using hm
      rw [hcontains] at hg
      exact absurd hg (by decide)

/-- Counterexample to C1 as stated: renaming candidate "a" to "X" with the
active checkbox unchecked triggers a merge with "b" (label "X"), yet the
survivor is written with `active = false`, not `true`. -/
theorem admin_rename_merge_keeps_checkbox_active :
    adminSave "a" "X" false [⟨"a", "X", true⟩, ⟨"b", "X", true⟩] [] =
      some ([⟨"a", "X", false⟩], []) := by
  decide

/-- Witness for C1: both merge branches evaluated at concrete colliding
candidate sets. -/
theorem admin_merge_first_match_survives_witness :
    adminAdd "n1" "X" [⟨"a", "X", true⟩, ⟨"b", "X", true⟩] [⟨"nm", "e", "b", "a", "c", "t"⟩] =
      some ([⟨"a", "X", true⟩], [⟨"nm", "e", "a", "a", "c", "t"⟩]) ∧
    adminSave "a" "Y" true [⟨"a", "X", true⟩, ⟨"b", "Y", true⟩]
        [⟨"nm", "e", "b", "a", "c", "t"⟩] =
      some ([⟨"a", "Y", true⟩], [⟨"nm", "e", "a", "a", "c", "t"⟩]) := by
  constructor
  · have h := (admin_merge_first_match_survives.1 "n1" "X"
      [⟨"a", "X", true⟩, ⟨"b", "X", true⟩] [⟨"nm", "e", "b", "a", "c", "t"⟩]
      ⟨"a", "X", true⟩ [⟨"b", "X", true⟩] (by decide) (by decide) (by decide)).1
    rw [h]
    decide
  · have h := (admin_merge_first_match_survives.2 "Y" true
      [⟨"a", "X", true⟩, ⟨"b", "Y", true⟩] [⟨"nm", "e", "b", "a", "c", "t"⟩]
      ⟨"a", "X", true⟩ [⟨"b", "Y", true⟩] (by decide) (by decide) (by decide)
      (by decide) (by decide)).1
    rw [h]
    decide

theorem mem_scopeIds_go (l seen : List String) (x : String) :
    x ∈ scopeIds.go l seen ↔ x ∈ l ∧ x ∉ seen := by
  induction l generalizing seen with
  | nil => simp [scopeIds.go]
  | cons y ys ih =>
    unfold scopeIds.go
    by_cases hy : y ∈ seen
    · rw [if_pos hy, ih]
      constructor
      · rintro ⟨hx, hnx⟩
        exact ⟨List.mem_cons_of_mem y hx, hnx⟩
      · rintro ⟨hx, hnx⟩
        rcases List.mem_cons.mp hx with rfl | hx
        · exact absurd hy hnx
        · exact ⟨hx, hnx⟩
    · rw [if_neg hy]
      constructor
      · intro hx
        rcases List.mem_cons.mp hx with rfl | hx
        · exact ⟨List.mem_cons_self x ys, hy⟩
        · rcases (ih (y :: seen)).mp hx with ⟨h1, h2⟩
          exact ⟨List.mem_cons_of_mem y h1,
            fun hc => h2 (List.mem_cons_of_mem y hc)⟩
      · rintro ⟨hx, hnx⟩
        rcases List.mem_cons.mp hx with rfl | hx
        · exact List.mem_cons_self x _
        · by_cases hxy : x = y
          · subst hxy
            exact List.mem_cons_self x _
          · exact List.mem_cons_of_mem y ((ih (y :: seen)).mpr
              ⟨hx, fun hc => (List.mem_cons.mp hc).elim hxy hnx⟩)

theorem mem_scopeIds_true (cands : List Candidate) (x : String) :
    x ∈ scopeIds cands true ↔ x ∈ cands.map (·.id) := by
  unfold scopeIds
  rw [mem_scopeIds_go]
  simp

/-- `replaceMulti` over a single removed id is `replaceVote`. -/
theorem replaceMulti_singleton (d n : String) (v : Vote) :
    replaceMulti [d] n v = replaceVote d n v := by
  unfold replaceMulti replaceVote
  simp [List.mem_singleton]

/-- C2: if the live candidates `a` and `b` are the only pair whose labels
share a normalized key (the rename of `a` to label `L` conflicts exactly
with `b`), then triggering the merge leaves exactly one of the two ids in
the candidate set, and the points the full-history aggregation attributes
to the surviving id equal the sum of the points the two pre-merge ids
would have received together. -/
theorem merge_safety (cands : List Candidate) (votes : List Vote) (a b : Candidate)
    (L : String) (activeBox : Bool)
    (hnd : (cands.map (·.id)).Nodup) (ha : a ∈ cands)
    (hlab : ¬ pyStrip L = "")
    (hconf : saveConflicts cands a.id (pyStrip L) = [b]) :
    ∃ cands2 votes2,
      adminSave a.id L activeBox cands votes = some (cands2, votes2) ∧
      (cands2.filter (fun c => c.id == a.id || c.id == b.id)).length = 1 ∧
      ((aggStatsList cands2 votes2 true).lookup a.id).map (·.points) =
        some ((tallyFor a.id votes).points + (tallyFor b.id votes).points) := by
  obtain ⟨heq, hmem, hgone⟩ := admin_merge_first_match_survives.2 L activeBox cands votes a [b]
    hnd ha hlab hconf (by simp)
  have hbne : ¬ a.id = b.id := by
    have hb : b ∈ saveConflicts cands a.id (pyStrip L) := by rw [hconf]; exact List.mem_singleton.mpr rfl
    have hcond := List.of_mem_filter hb
    simp only [Bool.and_eq_true, bne_iff_ne] at hcond
    exact fun h => hcond.2 h.symm
  refine ⟨_, _, heq, ?_, ?_⟩
  · set cands2 := (cands.map (fun c => if c.id = a.id then
        (⟨c.id, pyStrip L, activeBox⟩ : Candidate) else c)).filter
        (fun c => !(([b].map (·.id)).contains c.id)) with hc2
    have hnd2 : (cands2.map (·.id)).Nodup := nodup_ids_filter_update cands hnd _ _ _ _
    have hgone_b : b.id ∉ cands2.map (·.id) := hgone b (List.mem_singleton.mpr rfl)
    have hcongr : cands2.countP (fun c => c.id == a.id || c.id == b.id) =
        cands2.countP (fun c => c.id == a.id) := by
      apply List.countP_congr
      intro c hcmem
      have : c.id ≠ b.id := by
        intro hcb
        exact hgone_b (hcb ▸ List.mem_map_of_mem (·.id) hcmem)
      simp [this]
    rw [← List.countP_eq_length_filter, hcongr]
    have hcount : cands2.countP (fun c => c.id == a.id) = (cands2.map (·.id)).count a.id := by
      rw [List.count, List.countP_map]
      rfl
    rw [hcount]
    exact List.count_eq_one_of_mem hnd2 hmem
  · have hv2 : votes.map (replaceMulti ([b].map (·.id)) a.id) =
        votes.map (replaceVote b.id a.id) := by
      apply List.map_congr_left
      intro v _
      exact replaceMulti_singleton b.id a.id v
    rw [hv2, lookup_aggStatsList]
    rw [if_pos ((mem_scopeIds_true _ a.id).mpr hmem)]
    rw [tallyFor_map_replaceVote a.id b.id votes hbne]
    rfl

/-- Witness for C2: two colliding candidates with one vote; the survivor
inherits both slots of the repointed vote and scores 3 + 2 = 5 points. -/
theorem merge_safety_witness :
    adminSave "a" "X" true [⟨"a", "X", true⟩, ⟨"b", "X", true⟩]
        [⟨"n", "e", "b", "a", "c", "t"⟩] =
      some ([⟨"a", "X", true⟩], [⟨"n", "e", "a", "a", "c", "t"⟩]) ∧
    (([⟨"a", "X", true⟩] : List Candidate).filter
        (fun c => c.id == "a" || c.id == "b")).length = 1 ∧
    ((aggStatsList [⟨"a", "X", true⟩] [⟨"n", "e", "a", "a", "c", "t"⟩] true).lookup
        "a").map (·.points) = some 5 := by
  obtain ⟨c2, v2, heq, hlen, hpts⟩ := merge_safety [⟨"a", "X", true⟩, ⟨"b", "X", true⟩]
    [⟨"n", "e", "b", "a", "c", "t"⟩] ⟨"a", "X", true⟩ ⟨"b", "X", true⟩ "X" true
    (by decide) (by decide) (by decide) (by decide)
  have heval : adminSave (⟨"a", "X", true⟩ : Candidate).id "X" true
      [⟨"a", "X", true⟩, ⟨"b", "X", true⟩] [⟨"n", "e", "b", "a", "c", "t"⟩] =
      some ([⟨"a", "X", true⟩], [⟨"n", "e", "a", "a", "c", "t"⟩]) := by decide
  rw [heq] at heval
  have hpair : (c2, v2) = ([(⟨"a", "X", true⟩ : Candidate)],
      [(⟨"n", "e", "a", "a", "c", "t"⟩ : Vote)]) := by
    injection heval
  have hc : c2 = [⟨"a", "X", true⟩] := congrArg Prod.fst hpair
  have hv : v2 = [⟨"n", "e", "a", "a", "c", "t"⟩] := congrArg Prod.snd hpair
  subst hc
  subst hv
  exact ⟨heq, hlen, by rw [hpts]; decide⟩

theorem selectCols_convertLegacyCands (freshIds : List String) (df : Df) :
    selectCols (convertLegacyCands freshIds df) candCols = convertLegacyCands freshIds df := by
  unfold selectCols convertLegacyCands
  simp only [List.map_map]
  congr 1

theorem selectCols_convertLegacyVotes (cands df : Df) :
    selectCols (convertLegacyVotes cands df) voteCols = convertLegacyVotes cands df := by
  unfold selectCols convertLegacyVotes
  simp only [List.map_map]
  congr 1

/-- C5 (amended): migrating a legacy candidate or vote file a second time
yields byte-identical canonical output, and opening a store whose
candidates file is already canonical does not rewrite it; the votes file,
however, is re-persisted (with identical canonical content) on every open
by `src/main.py`'s canonical branch — `src/app.py`'s canonical branch does
not write.  (The original claim said neither file is rewritten — see the
counterexample.) -/
theorem migration_idempotent (freshIds freshIds2 : List String) (cands df vf : Df) :
    (hasCols df candCols = false → hasCols df ["name"] = true →
      ensure_candidates_schema freshIds (some df) =
        (convertLegacyCands freshIds df, some (convertLegacyCands freshIds df)) ∧
      ensure_candidates_schema freshIds2 (some (convertLegacyCands freshIds df)) =
        (convertLegacyCands freshIds df, none)) ∧
    (hasCols vf ["first_id", "second_id", "third_id"] = false →
      hasCols vf ["first", "second", "third"] = true →
      ensure_votes_schema cands (some vf) =
        (convertLegacyVotes cands vf, some (convertLegacyVotes cands vf)) ∧
      ensure_votes_schema cands (some (convertLegacyVotes cands vf)) =
        (convertLegacyVotes cands vf, some (convertLegacyVotes cands vf))) ∧
    (hasCols df candCols = true →
      ensure_candidates_schema freshIds (some df) = (selectCols df candCols, none)) ∧
    (hasCols vf ["first_id", "second_id", "third_id"] = true →
      ensureVotesSchemaApp cands (some vf) =
        ((ensureVotesSchemaApp cands (some vf)).1, none)) := by
  refine ⟨?_, ?_, ?_, ?_⟩
  · intro h1 h2
    constructor
    · simp only [ensure_candidates_schema, h1, h2, Bool.false_eq_true, if_false, if_true]
    · simp only [ensure_candidates_schema]
      rw [if_pos (show hasCols (convertLegacyCands freshIds df) candCols = true from rfl),
        selectCols_convertLegacyCands]
  · intro h1 h2
    constructor
    · simp only [ensure_votes_schema, h1, h2, Bool.false_eq_true, if_false, if_true]
    · simp only [ensure_votes_schema]
      rw [if_pos (show hasCols (convertLegacyVotes cands vf)
          ["first_id", "second_id", "third_id"] = true from rfl),
        selectCols_convertLegacyVotes]
  · intro h1
    simp only [ensure_candidates_schema, h1, if_true]
  · intro h1
    simp only [ensureVotesSchemaApp, h1, if_true]

/-- Counterexample to C5 as stated: `ensure_votes_schema` of `src/main.py`
rewrites an already-canonical votes file on every open. -/
theorem canonical_votes_file_rewritten :
    (ensure_votes_schema ⟨candCols, []⟩
        (some ⟨voteCols, [[("voter_name", "n"), ("employee_id", "7"), ("first_id", "a"),
          ("second_id", "b"), ("third_id", "c"), ("time", "t")]]⟩)).2 =
      some ⟨voteCols, [[("voter_name", "n"), ("employee_id", "7"), ("first_id", "a"),
        ("second_id", "b"), ("third_id", "c"), ("time", "t")]]⟩ := by
  decide

/-- Witness for C5: a concrete legacy candidates file and a concrete legacy
votes file, migrated twice. -/
theorem migration_idempotent_witness :
    ensure_candidates_schema ["i1"] (some ⟨["name"], [[("name", "X")]]⟩) =
      (⟨candCols, [[("id", "i1"), ("label", "X"), ("active", "True")]]⟩,
       some ⟨candCols, [[("id", "i1"), ("label", "X"), ("active", "True")]]⟩) ∧
    ensure_candidates_schema ["i2"]
        (some ⟨candCols, [[("id", "i1"), ("label", "X"), ("active", "True")]]⟩) =
      (⟨candCols, [[("id", "i1"), ("label", "X"), ("active", "True")]]⟩, none) := by
  have h := (migration_idempotent ["i1"] ["i2"] ⟨candCols, []⟩ ⟨["name"], [[("name", "X")]]⟩
    ⟨candCols, []⟩).1 (by decide) (by decide)
  constructor
  · rw [h.1]
    decide
  · have h2 := h.2
    rw [show convertLegacyCands ["i1"] ⟨["name"], [[("name", "X")]]⟩ =
      ⟨candCols, [[("id", "i1"), ("label", "X"), ("active", "True")]]⟩ from by decide] at h2
    rw [h2]

/-- C6 (amended): when the candidates file is present but its column set
matches neither the canonical `{id,label,active}` shape nor a legacy shape
containing `name`, `src/app.py` fails with a fatal schema error
(`ValueError`), but `src/main.py` falls through to the first-run bootstrap
and silently replaces the store with the default candidate set.  (The
original claim asserted the fatal error for the program as a whole — see
the counterexample from `src/main.py`.) -/
theorem unrecognized_candidates_schema (freshIds : List String) (df : Df)
    (h1 : hasCols df candCols = false) (h2 : hasCols df ["name"] = false) :
    ensureCandidatesSchemaApp freshIds (some df) =
      .schemaError "candidates.csv の列構成が不正です（id,label,active or name,active を想定）" ∧
    ensure_candidates_schema freshIds (some df) =
      (bootstrapDf freshIds, some (bootstrapDf freshIds)) := by
  constructor
  · simp only [ensureCandidatesSchemaApp, h1, h2, Bool.false_eq_true, if_false]
  · simp only [ensure_candidates_schema, h1, h2, Bool.false_eq_true, if_false]

/-- Counterexample to C6 as stated: `src/main.py` silently replaces an
unrecognized candidates file with the default bootstrap set — no error. -/
theorem unrecognized_candidates_silently_replaced :
    ensure_candidates_schema ["i1", "i2", "i3", "i4"] (some ⟨["foo"], [[("foo", "x")]]⟩) =
      (bootstrapDf ["i1", "i2", "i3", "i4"], some (bootstrapDf ["i1", "i2", "i3", "i4"])) := by
  decide

/-- Witness for C6 at a concrete unrecognized file. -/
theorem unrecognized_candidates_schema_witness :
    ensureCandidatesSchemaApp ["i1"] (some ⟨["foo"], [[("foo", "x")]]⟩) =
      .schemaError "candidates.csv の列構成が不正です（id,label,active or name,active を想定）" :=
  (unrecognized_candidates_schema ["i1"] ⟨["foo"], [[("foo", "x")]]⟩
    (by decide) (by decide)).1

/-- C10: when the votes file exists but its columns contain neither
`{first_id,second_id,third_id}` nor `{first,second,third}`, both variants
return an empty, well-typed vote store, raise no error (they are total
functions), and perform no write. -/
theorem unrecognized_votes_schema (cands df : Df)
    (h1 : hasCols df ["first_id", "second_id", "third_id"] = false)
    (h2 : hasCols df ["first", "second", "third"] = false) :
    ensure_votes_schema cands (some df) = (emptyVotesDf, none) ∧
    emptyVotesDf.rows = [] ∧ emptyVotesDf.cols = voteCols ∧
    ensureVotesSchemaApp cands (some df) = (emptyVotesDfApp, none) ∧
    emptyVotesDfApp.rows = [] := by
  refine ⟨?_, rfl, rfl, ?_, rfl⟩
  · simp only [ensure_votes_schema, h1, h2, Bool.false_eq_true, if_false]
  · simp only [ensureVotesSchemaApp, h1, h2, Bool.false_eq_true, if_false]

/-- Witness for C10 at a concrete malformed votes file. -/
theorem unrecognized_votes_schema_witness :
    ensure_votes_schema ⟨candCols, []⟩ (some ⟨["x", "y"], [[("x", "1"), ("y", "2")]]⟩) =
      (emptyVotesDf, none) :=
  (unrecognized_votes_schema ⟨candCols, []⟩ ⟨["x", "y"], [[("x", "1"), ("y", "2")]]⟩
    (by decide) (by decide)).1

/-- C8 (amended): submitting a vote whose three candidate ids are not
pairwise distinct, or where any of the three is missing, is rejected with
an error and no vote is stored; submitting with three pairwise-distinct
ids — provided the voter name and employee id are non-empty, a check the
handler performs first — succeeds, and the stored vote is retrievable via
the vote list in append order (appended at the end).  (The original claim
said distinct known ids alone suffice — see the counterexample with an
empty voter name.) -/
theorem vote_validation (voterName employeeId f s t now : String)
    (first? second? third? : Option String) (votes : List Vote) :
    ((f = s ∨ f = t ∨ s = t) →
      ∃ m, submitVote voterName employeeId (some f) (some s) (some t) now votes =
        .rejected m) ∧
    ((first? = none ∨ second? = none ∨ third? = none) →
      ∃ m, submitVote voterName employeeId first? second? third? now votes =
        .rejected m) ∧
    (¬ f = s → ¬ f = t → ¬ s = t → ¬ voterName = "" → ¬ employeeId = "" →
      submitVote voterName employeeId (some f) (some s) (some t) now votes =
        .accepted (votes ++
          [⟨pyStrip voterName, pyStrip employeeId, f, s, t, now⟩])) := by
  refine ⟨?_, ?_, ?_⟩
  · intro hdup
    unfold submitVote
    by_cases hname : voterName = "" ∨ employeeId = ""
    · refine ⟨"お名前と社員番号を入力してください", ?_⟩
      rcases hname with h | h <;> simp [h]
    · push_neg at hname
      refine ⟨"同じ候補は重複して選べません", ?_⟩
      rw [if_neg (by simp [hname.1, hname.2])]
      simp only
      rw [if_pos (by rcases hdup with h | h | h <;> simp [h])]
  · intro hnone
    unfold submitVote
    by_cases hname : voterName = "" ∨ employeeId = ""
    · refine ⟨"お名前と社員番号を入力してください", ?_⟩
      rcases hname with h | h <;> simp [h]
    · push_neg at hname
      refine ⟨"1〜3位をすべて選んでください", ?_⟩
      rw [if_neg (by simp [hname.1, hname.2])]
      rcases hnone with h | h | h
      · subst h
        cases second? <;> cases third? <;> rfl
      · subst h
        cases first? <;> cases third? <;> rfl
      · subst h
        cases first? <;> cases second? <;> rfl
  · intro h1 h2 h3 hn he
    unfold submitVote
    rw [if_neg (by simp [hn, he])]
    simp only
    rw [if_neg (by simp [h1, h2, h3])]
    rfl

/-- Counterexample to C8 as stated: three pairwise-distinct ids are
rejected when the voter name is empty. -/
theorem vote_distinct_ids_rejected_without_name :
    submitVote "" "0001" (some "a") (some "b") (some "c") "t" [] =
      .rejected "お名前と社員番号を入力してください" := by
  decide

/-- Witness for C8: the three branches discharged at concrete inputs. -/
theorem vote_validation_witness :
    (∃ m, submitVote "nm" "01" (some "a") (some "a") (some "c") "t" [] = .rejected m) ∧
    (∃ m, submitVote "nm" "01" (some "a") none (some "c") "t" [] = .rejected m) ∧
    submitVote "nm" "01" (some "a") (some "b") (some "c") "t" [] =
      .accepted [⟨"nm", "01", "a", "b", "c", "t"⟩] := by
  refine ⟨?_, ?_, ?_⟩
  · exact (vote_validation "nm" "01" "a" "a" "c" "t" (some "a") (some "a") (some "c") []).1
      (Or.inl rfl)
  · exact (vote_validation "nm" "01" "a" "a" "c" "t" (some "a") none (some "c") []).2.1
      (Or.inr (Or.inl rfl))
  · have h := (vote_validation "nm" "01" "a" "b" "c" "t" (some "a") (some "b") (some "c") []).2.2
      (by decide) (by decide) (by decide) (by decide) (by decide)
    rw [h]
    decide

theorem readCsvCell_dtypeStr (s : String) : readCsvCell true s = s := rfl

theorem readDf_dtypeStr (df : Df) : readDf true df = df := by
  unfold readDf
  congr 1
  conv_rhs => rw [← List.map_id df.rows]
  apply List.map_congr_left
  intro r _
  show List.map (fun p => (p.1, readCsvCell true p.2)) r = r
  conv_rhs => rw [← List.map_id r]
  apply List.map_congr_left
  intro p _
  rfl

theorem rowToVote_voteToRow (v : Vote) : rowToVote (voteToRow v) = v := rfl

theorem dfToVotes_votesToDf (vs : List Vote) : dfToVotes (votesToDf vs) = vs := by
  unfold dfToVotes votesToDf
  simp only [List.map_map]
  conv_rhs => rw [← List.map_id vs]
  apply List.map_congr_left
  intro v _
  rfl

/-- C9 (amended): an employee id without surrounding whitespace — such as
`"00042"` — is stored by `append_vote` and read back by the `dtype=str`
reload as the exact original text (never a numeric coercion like `"42"`),
and the canonical migration branch carries the `employee_id` column
through verbatim; `append_vote` does strip surrounding whitespace, so an
id with leading or trailing spaces is stored stripped (the original claim
said every id round-trips exactly — see the counterexample). -/
theorem employee_id_round_trip (vn eid f s t now : String) (votes : List Vote)
    (cands df : Df) (heid : pyStrip eid = eid)
    (hcanon : hasCols df ["first_id", "second_id", "third_id"] = true) :
    dfToVotes (readDf true (votesToDf (append_vote vn eid f s t now votes))) =
      append_vote vn eid f s t now votes ∧
    (append_vote vn eid f s t now votes).getLast?.map (·.employeeId) = some eid ∧
    (∀ x : String, readCsvCell true x = x) ∧
    ((ensure_votes_schema cands (some df)).1.rows.map (fun r => getCell r "employee_id")) =
      df.rows.map (fun r => getCell r "employee_id") := by
  refine ⟨?_, ?_, fun x => rfl, ?_⟩
  · rw [readDf_dtypeStr, dfToVotes_votesToDf]
  · unfold append_vote
    rw [List.getLast?_append]
    simp [heid]
  · simp only [ensure_votes_schema, hcanon, if_true]
    unfold selectCols
    simp only [List.map_map]
    apply List.map_congr_left
    intro r _
    rfl

/-- Counterexample to C9 as stated: an employee id entered with a leading
space is stored stripped, not as the exact original text. -/
theorem employee_id_not_exact_when_padded :
    (append_vote "n" " 00042" "a" "b" "c" "t" []).map (·.employeeId) = ["00042"] ∧
    (" 00042" : String) ≠ "00042" := by
  constructor
  · decide
  · decide

/-- Witness for C9: the round trip evaluated at `"00042"`, plus the
numeric-coercion contrast the `dtype=str` read avoids. -/
theorem employee_id_round_trip_witness :
    dfToVotes (readDf true (votesToDf (append_vote "n" "00042" "a" "b" "c" "t" []))) =
      append_vote "n" "00042" "a" "b" "c" "t" [] ∧
    (append_vote "n" "00042" "a" "b" "c" "t" []).getLast?.map (·.employeeId) =
      some "00042" ∧
    readCsvCell false "00042" = "42" := by
  obtain ⟨h1, h2, _, _⟩ := employee_id_round_trip "n" "00042" "a" "b" "c" "t" []
    ⟨candCols, []⟩ ⟨voteCols, []⟩ (by decide) (by decide)
  exact ⟨h1, h2, by decide⟩
